import Mathlib

/-!
Verification of the graph construction and metrics engine of the spine
repository (backend/src/graph, backend/src/sentiment, backend/src/metrics).

The Python code is shallowly embedded:
* Python `float` arithmetic is modelled by exact arithmetic (`ℚ` where the
  computation is rational, `ℝ` where `exp`/`log` appear); the spec itself
  declares bit-exact floating point out of scope.
* `datetime` values are modelled as integer day numbers (the code only
  compares timestamps and takes differences in days).
* Python dicts keyed by strings are modelled either as association lists
  (when insertion order or iteration matters) or as total functions with a
  default (when only `get` is used).
* networkx graphs are modelled by `DiGraph` below: a node list and an edge
  association list, each carrying an attribute record whose optional fields
  model attributes that a pipeline stage may not have set yet.
* networkx library calls whose numeric output is irrelevant to every claim
  (betweenness, eigenvector iteration values, average path length,
  clustering) are abstracted as function parameters, so the theorems hold
  for every possible value of those calls; library calls whose behaviour a
  claim depends on (pagerank, degree centrality, weakly connected
  components, the null-graph guard of eigenvector centrality) are modelled
  concretely.
-/

set_option autoImplicit false

namespace Spine

/-- A parsed email record: the fields of `ParsedEmail`
(backend/src/parser/email_parser.py) consumed by the graph core.
Timestamps are integer day numbers; `none` models a missing date. -/
structure ParsedEmail where
  sender : String
  recipients_to : List String
  recipients_cc : List String
  recipients_bcc : List String
  subject : String
  body : String
  date : Option Int

/-- Attributes of a directed edge of the communication graph.  Optional
fields model networkx edge attributes not yet set by earlier stages. -/
structure EdgeData where
  email_count : Nat := 0
  first_email : Option Int := none
  last_email : Option Int := none
  subjects : List String := []
  sentiment : Option ℚ := none
  sentiment_count : Nat := 0
  response_efficiency : Option ℚ := none
  weight : Option ℝ := none
  norm_frequency : Option ℝ := none
  norm_recency : Option ℝ := none
  sentiment_asymmetry : Option ℚ := none

/-- Attributes of a node of the communication graph. -/
structure NodeData where
  name : String := ""
  email : String := ""
  total_sent : Nat := 0
  total_received : Nat := 0
  avg_sent_sentiment : Option ℚ := none
  avg_received_sentiment : Option ℚ := none

/-- A networkx `DiGraph`: nodes and directed edges with attribute records,
in insertion order. -/
structure DiGraph where
  nodes : List (String × NodeData)
  edges : List ((String × String) × EdgeData)

/-- The node identifiers of a graph, in order. -/
def nodeIds (g : DiGraph) : List String := g.nodes.map Prod.fst

/-- Attribute record of edge `k`, if the edge exists (`G.has_edge` plus
attribute access). -/
def lookupEdge (g : DiGraph) (k : String × String) : Option EdgeData :=
  (g.edges.find? (fun e => e.1 = k)).map Prod.snd

/-- `G.nodes[n].get("name", n)`: the display name stored on node `n`,
defaulting to `n` itself. -/
def nodeName (g : DiGraph) (n : String) : String :=
  match g.nodes.find? (fun p => p.1 = n) with
  | some p => p.2.name
  | none => n

/-- Python `str.endswith`, computed on the character list of the string. -/
def strEndsWith (s t : String) : Bool :=
  s.data.drop (s.data.length - t.data.length) = t.data

/-- Python `str.capitalize`: first character upper-cased, the rest
lower-cased. -/
def pyCapitalize : List Char → List Char
  | [] => []
  | c :: t => c.toUpper :: t.map Char.toLower

/-- `extract_display_name` (graph/builder.py): take the local part of the
address, replace `_` and `-` by `.`, split on `.`, capitalize the nonempty
tokens and join them with spaces. -/
def extract_display_name (addr : String) : String :=
  let localPart := addr.data.takeWhile (fun c => c ≠ '@')
  let dotted := localPart.map (fun c => if c = '_' ∨ c = '-' then '.' else c)
  let parts := (dotted.splitOnP (fun c => c = '.')).filter (fun p => ¬ p.isEmpty)
  String.mk (List.intercalate [' '] (parts.map pyCapitalize))

/-- The `(sender, recipient)` iterations of `build_graph`'s nested loop
(graph/builder.py lines 46-76), flattened: one entry per recipient of each
email that passes the enron-domain filter and the self-communication
filter. -/
def emailPairs (enron_only : Bool) (emails : List ParsedEmail) :
    List (ParsedEmail × String) :=
  emails.flatMap (fun em =>
    if enron_only ∧ ¬ strEndsWith em.sender "@enron.com" then []
    else
      ((em.recipients_to ++ em.recipients_cc ++ em.recipients_bcc).filter
        (fun r => ¬ (enron_only ∧ ¬ strEndsWith r "@enron.com") ∧ r ≠ em.sender)).map
        (fun r => (em, r)))

/-- Per-edge aggregation record of `build_graph`'s `edge_data` defaultdict. -/
structure EdgeAgg where
  email_count : Nat := 0
  first_email : Option Int := none
  last_email : Option Int := none
  subjects : List String := []

/-- The defaultdict default: all-empty aggregation record. -/
def emptyAgg : EdgeAgg := {}

/-- `edge_data[key]` update: mutate the entry of `k` in place if present,
otherwise create the default entry (Python dicts keep insertion order, so a
new key goes to the end). -/
def updateAssoc (l : List ((String × String) × EdgeAgg)) (k : String × String)
    (f : EdgeAgg → EdgeAgg) : List ((String × String) × EdgeAgg) :=
  match l with
  | [] => [(k, f emptyAgg)]
  | (k', v) :: t =>
    if k' = k then (k', f v) :: t else (k', v) :: updateAssoc t k f

/-- The body of `build_graph`'s inner loop applied to one aggregation
record: bump the count, fold the date into first/last, append the subject
when nonempty. -/
def aggStep (em : ParsedEmail) (d : EdgeAgg) : EdgeAgg :=
  let d1 : EdgeAgg := { d with email_count := d.email_count + 1 }
  let d2 : EdgeAgg :=
    match em.date with
    | none => d1
    | some t =>
      { d1 with
        first_email := some (match d1.first_email with | none => t | some a => min a t),
        last_email := some (match d1.last_email with | none => t | some a => max a t) }
  if em.subject ≠ "" then { d2 with subjects := d2.subjects ++ [em.subject] } else d2

/-- Mutable state of `build_graph`'s aggregation loop: the `edge_data`
dict plus the `node_sent`/`node_received` counters (modelled as total
functions, since they are only read back via `.get(key, 0)`). -/
structure BuildAcc where
  edge_data : List ((String × String) × EdgeAgg)
  node_sent : String → Nat
  node_received : String → Nat

/-- One iteration of `build_graph`'s inner loop. -/
def recordPair (acc : BuildAcc) (em : ParsedEmail) (r : String) : BuildAcc :=
  { edge_data := updateAssoc acc.edge_data (em.sender, r) (aggStep em),
    node_sent := fun s => if s = em.sender then acc.node_sent s + 1 else acc.node_sent s,
    node_received := fun s => if s = r then acc.node_received s + 1 else acc.node_received s }

/-- The whole aggregation phase of `build_graph` (lines 33-82). -/
def buildAccumulate (enron_only : Bool) (emails : List ParsedEmail) : BuildAcc :=
  (emailPairs enron_only emails).foldl (fun acc p => recordPair acc p.1 p.2)
    { edge_data := [], node_sent := fun _ => 0, node_received := fun _ => 0 }

/-- Append an element to a list unless already present (how networkx
`add_edge` grows the node set, in first-seen order). -/
def insertNew (l : List String) (x : String) : List String :=
  if x ∈ l then l else l ++ [x]

/-- `build_graph` (graph/builder.py): aggregate all qualifying
(sender, recipient) pairs, materialize only edges whose count meets
`min_emails`, and create exactly the nodes incident to a materialized
edge, with `name` derived by `extract_display_name` (the `node_names`
dict always holds `extract_display_name` of the key, so it is inlined). -/
def build_graph (emails : List ParsedEmail) (min_emails : Nat) (enron_only : Bool) :
    DiGraph :=
  let acc := buildAccumulate enron_only emails
  let kept := acc.edge_data.filter (fun e => min_emails ≤ e.2.email_count)
  let edges := kept.map (fun e =>
    (e.1, ({ email_count := e.2.email_count, first_email := e.2.first_email,
             last_email := e.2.last_email, subjects := e.2.subjects.take 50 } : EdgeData)))
  let ids := kept.foldl (fun ns e => insertNew (insertNew ns e.1.1) e.1.2) []
  let nodes := ids.map (fun i =>
    (i, ({ name := extract_display_name i, email := i,
           total_sent := acc.node_sent i, total_received := acc.node_received i } : NodeData)))
  { nodes := nodes, edges := edges }

/-! ### Association-list lemmas for the builder's `edge_data` dict -/

/-- Value stored under key `k` in the `edge_data` association list. -/
def lookupAgg (l : List ((String × String) × EdgeAgg)) (k : String × String) :
    Option EdgeAgg :=
  (l.find? (fun e => e.1 = k)).map Prod.snd

theorem lookupAgg_updateAssoc_self (l : List ((String × String) × EdgeAgg))
    (k : String × String) (f : EdgeAgg → EdgeAgg) :
    lookupAgg (updateAssoc l k f) k = some (f ((lookupAgg l k).getD emptyAgg)) := by
  induction l with
  | nil => simp [updateAssoc, lookupAgg]
  | cons hd tl ih =>
    obtain ⟨k', v⟩ := hd
    by_cases h : k' = k
    · subst h
      simp [updateAssoc, lookupAgg]
    · simp only [updateAssoc, if_neg h]
      simpa [lookupAgg, List.find?, h] using ih

theorem lookupAgg_updateAssoc_other (l : List ((String × String) × EdgeAgg))
    (k k' : String × String) (f : EdgeAgg → EdgeAgg) (h : k' ≠ k) :
    lookupAgg (updateAssoc l k f) k' = lookupAgg l k' := by
  induction l with
  | nil => simp [updateAssoc, lookupAgg, List.find?, Ne.symm h]
  | cons hd tl ih =>
    obtain ⟨k0, v⟩ := hd
    by_cases h0 : k0 = k
    · subst h0
      simp [updateAssoc, lookupAgg, List.find?, Ne.symm h]
    · simp only [updateAssoc, if_neg h0]
      by_cases h1 : k0 = k'
      · subst h1
        simp [lookupAgg, List.find?]
      · simpa [lookupAgg, List.find?, h1] using ih

theorem keys_updateAssoc (l : List ((String × String) × EdgeAgg))
    (k : String × String) (f : EdgeAgg → EdgeAgg) :
    (updateAssoc l k f).map Prod.fst =
      if k ∈ l.map Prod.fst then l.map Prod.fst else l.map Prod.fst ++ [k] := by
  induction l with
  | nil => simp [updateAssoc]
  | cons hd tl ih =>
    obtain ⟨k0, v⟩ := hd
    by_cases h0 : k0 = k
    · subst h0
      simp [updateAssoc]
    · simp only [updateAssoc, if_neg h0, List.map_cons, ih]
      by_cases hk : k ∈ tl.map Prod.fst <;>
        simp [hk, h0, Ne.symm h0]

theorem nodup_updateAssoc (l : List ((String × String) × EdgeAgg))
    (k : String × String) (f : EdgeAgg → EdgeAgg)
    (h : (l.map Prod.fst).Nodup) : ((updateAssoc l k f).map Prod.fst).Nodup := by
  rw [keys_updateAssoc]
  by_cases hk : k ∈ l.map Prod.fst
  · simpa [hk] using h
  · simp [hk, List.nodup_append, h]

theorem lookupAgg_of_mem_nodup {l : List ((String × String) × EdgeAgg)}
    (h : (l.map Prod.fst).Nodup) {k : String × String} {d : EdgeAgg}
    (hm : (k, d) ∈ l) : lookupAgg l k = some d := by
  induction l with
  | nil => simp at hm
  | cons hd tl ih =>
    obtain ⟨k0, v⟩ := hd
    rw [List.map_cons, List.nodup_cons] at h
    rcases List.mem_cons.1 hm with heq | htl
    · injection heq with h1 h2
      subst h1
      subst h2
      simp [lookupAgg, List.find?]
    · have hne : k0 ≠ k := by
        intro he
        exact h.1 (by rw [he]; exact List.mem_map.2 ⟨(k, d), htl, rfl⟩)
      simpa [lookupAgg, List.find?, hne] using ih h.2 htl

/-! ### Counting lemmas: the aggregation loop counts qualifying pairs -/

/-- Aggregated email count for key `k` in the builder state. -/
def aggCount (acc : BuildAcc) (k : String × String) : Nat :=
  ((lookupAgg acc.edge_data k).getD emptyAgg).email_count

theorem aggStep_email_count (em : ParsedEmail) (d : EdgeAgg) :
    (aggStep em d).email_count = d.email_count + 1 := by
  unfold aggStep
  cases em.date <;> by_cases h : em.subject = "" <;> simp [h]

theorem aggCount_recordPair (acc : BuildAcc) (em : ParsedEmail) (r : String)
    (k : String × String) :
    aggCount (recordPair acc em r) k =
      aggCount acc k + (if (em.sender, r) = k then 1 else 0) := by
  by_cases h : (em.sender, r) = k
  · subst h
    simp [aggCount, recordPair, lookupAgg_updateAssoc_self, aggStep_email_count]
  · simp [aggCount, recordPair, lookupAgg_updateAssoc_other _ _ _ _ (Ne.symm h), h]

theorem aggCount_fold (ps : List (ParsedEmail × String)) (acc : BuildAcc)
    (k : String × String) :
    aggCount (ps.foldl (fun a p => recordPair a p.1 p.2) acc) k
      = aggCount acc k + ps.countP (fun p => (p.1.sender, p.2) = k) := by
  induction ps generalizing acc with
  | nil => simp
  | cons p t ih =>
    simp only [List.foldl_cons, List.countP_cons, ih, aggCount_recordPair]
    by_cases h : (p.1.sender, p.2) = k
    · simp [h]
      omega
    · simp [h]

theorem nodeSent_fold (ps : List (ParsedEmail × String)) (acc : BuildAcc) (n : String) :
    (ps.foldl (fun a p => recordPair a p.1 p.2) acc).node_sent n
      = acc.node_sent n + ps.countP (fun p => p.1.sender = n) := by
  induction ps generalizing acc with
  | nil => simp
  | cons p t ih =>
    rw [List.foldl_cons, ih, List.countP_cons]
    show (recordPair acc p.1 p.2).node_sent n + _ = _
    simp only [recordPair]
    by_cases h : n = p.1.sender
    · simp [h]
      omega
    · have h2 : ¬ p.1.sender = n := fun he => h he.symm
      simp [h, h2]

theorem nodeReceived_fold (ps : List (ParsedEmail × String)) (acc : BuildAcc) (n : String) :
    (ps.foldl (fun a p => recordPair a p.1 p.2) acc).node_received n
      = acc.node_received n + ps.countP (fun p => p.2 = n) := by
  induction ps generalizing acc with
  | nil => simp
  | cons p t ih =>
    rw [List.foldl_cons, ih, List.countP_cons]
    show (recordPair acc p.1 p.2).node_received n + _ = _
    simp only [recordPair]
    by_cases h : n = p.2
    · simp [h]
      omega
    · have h2 : ¬ p.2 = n := fun he => h he.symm
      simp [h, h2]

theorem nodup_keys_fold (ps : List (ParsedEmail × String)) (acc : BuildAcc)
    (h : (acc.edge_data.map Prod.fst).Nodup) :
    (((ps.foldl (fun a p => recordPair a p.1 p.2) acc).edge_data).map Prod.fst).Nodup := by
  induction ps generalizing acc with
  | nil => simpa
  | cons p t ih =>
    exact ih _ (nodup_updateAssoc _ _ _ h)

theorem buildAccumulate_count (eo : Bool) (emails : List ParsedEmail)
    (k : String × String) :
    aggCount (buildAccumulate eo emails) k
      = (emailPairs eo emails).countP (fun p => (p.1.sender, p.2) = k) := by
  unfold buildAccumulate
  rw [aggCount_fold]
  simp [aggCount, lookupAgg, emptyAgg]

theorem buildAccumulate_nodup (eo : Bool) (emails : List ParsedEmail) :
    (((buildAccumulate eo emails).edge_data).map Prod.fst).Nodup := by
  unfold buildAccumulate
  exact nodup_keys_fold _ _ (by simp)

theorem mem_insertNew {l : List String} {x y : String} (h : y ∈ insertNew l x) :
    y ∈ l ∨ y = x := by
  unfold insertNew at h
  by_cases hx : x ∈ l
  · simp [hx] at h
    exact Or.inl h
  · simp [hx] at h
    exact h

theorem mem_fold_insert (ks : List ((String × String) × EdgeAgg))
    (init : List String) (x : String)
    (h : x ∈ ks.foldl (fun ns e => insertNew (insertNew ns e.1.1) e.1.2) init) :
    x ∈ init ∨ ∃ e ∈ ks, x = e.1.1 ∨ x = e.1.2 := by
  induction ks generalizing init with
  | nil => exact Or.inl h
  | cons e t ih =>
    rcases ih _ h with hin | ⟨e', he', hx⟩
    · rcases mem_insertNew hin with hin2 | rfl
      · rcases mem_insertNew hin2 with hin3 | rfl
        · exact Or.inl hin3
        · exact Or.inr ⟨e, List.mem_cons_self .., Or.inl rfl⟩
      · exact Or.inr ⟨e, List.mem_cons_self .., Or.inr rfl⟩
    · exact Or.inr ⟨e', List.mem_cons_of_mem _ he', hx⟩

/-! ### Claims C6, C7 and C10 -/

/-- C6: every edge of the built graph carries an aggregated message count
at least `min_emails` (its `email_count` attribute is exactly the number
of qualifying (message, recipient) pairs for that ordered key), and every
node of the graph is an endpoint of at least one materialized edge. -/
theorem C6_edge_threshold_and_node_coverage (emails : List ParsedEmail)
    (m : Nat) (eo : Bool) :
    (∀ k d, (k, d) ∈ (build_graph emails m eo).edges →
      m ≤ d.email_count ∧
      d.email_count = (emailPairs eo emails).countP (fun p => (p.1.sender, p.2) = k)) ∧
    (∀ n nd, (n, nd) ∈ (build_graph emails m eo).nodes →
      ∃ k d, (k, d) ∈ (build_graph emails m eo).edges ∧ (n = k.1 ∨ n = k.2)) := by
  constructor
  · intro k d hm
    simp only [build_graph] at hm
    obtain ⟨e, hef, heq⟩ := List.mem_map.1 hm
    injection heq with h1 h2
    subst h1
    subst h2
    obtain ⟨hmem, hcnt⟩ := List.mem_filter.1 hef
    have hcnt2 : m ≤ e.2.email_count := by simpa using hcnt
    have hagg : aggCount (buildAccumulate eo emails) e.1 = e.2.email_count := by
      have hl := lookupAgg_of_mem_nodup (buildAccumulate_nodup eo emails) hmem
      simp [aggCount, hl]
    refine ⟨hcnt2, ?_⟩
    show e.2.email_count = _
    rw [← hagg]
    exact buildAccumulate_count eo emails e.1
  · intro n nd hm
    simp only [build_graph] at hm
    obtain ⟨i, hi, heq⟩ := List.mem_map.1 hm
    injection heq with h1 h2
    subst h1
    rcases mem_fold_insert _ _ _ hi with hinit | ⟨e, he, hx⟩
    · simp at hinit
    · refine ⟨e.1, ({ email_count := e.2.email_count,
                        first_email := e.2.first_email,
                        last_email := e.2.last_email,
                        subjects := e.2.subjects.take 50 } : EdgeData), ?_, hx⟩
      simp only [build_graph]
      exact List.mem_map.2 ⟨e, he, rfl⟩

/-- Witness input: one email from a\@enron.com to b\@enron.com. -/
def eAB : ParsedEmail :=
  { sender := "a@enron.com", recipients_to := ["b@enron.com"], recipients_cc := [],
    recipients_bcc := [], subject := "s", body := "all good", date := some 10 }

/-- The reverse email, b\@enron.com to a\@enron.com. -/
def eBA : ParsedEmail :=
  { sender := "b@enron.com", recipients_to := ["a@enron.com"], recipients_cc := [],
    recipients_bcc := [], subject := "t", body := "thanks", date := some 11 }

theorem C6_witness :
    ∃ d, (("a@enron.com", "b@enron.com"), d) ∈ (build_graph [eAB] 1 true).edges ∧
      1 ≤ d.email_count := by
  have hedges : (build_graph [eAB] 1 true).edges =
      [(("a@enron.com", "b@enron.com"),
        ({ email_count := 1, first_email := some 10, last_email := some 10,
           subjects := ["s"] } : EdgeData))] := rfl
  have hmem : (("a@enron.com", "b@enron.com"),
      ({ email_count := 1, first_email := some 10, last_email := some 10,
         subjects := ["s"] } : EdgeData)) ∈ (build_graph [eAB] 1 true).edges := by
    rw [hedges]
    exact List.mem_singleton.2 rfl
  exact ⟨_, hmem, ((C6_edge_threshold_and_node_coverage [eAB] 1 true).1 _ _ hmem).1⟩

/-- C10: `total_sent` of every node equals the number of qualifying
(message, recipient) pairs whose sender is that node, and
`total_received` the number of qualifying pairs whose recipient is that
node; the counts are taken before the edge threshold is applied. -/
theorem C10_sent_received_counts (emails : List ParsedEmail) (m : Nat) (eo : Bool) :
    ∀ n nd, (n, nd) ∈ (build_graph emails m eo).nodes →
      nd.total_sent = (emailPairs eo emails).countP (fun p => p.1.sender = n) ∧
      nd.total_received = (emailPairs eo emails).countP (fun p => p.2 = n) := by
  intro n nd hm
  simp only [build_graph] at hm
  obtain ⟨i, hi, heq⟩ := List.mem_map.1 hm
  injection heq with h1 h2
  subst h1
  subst h2
  constructor
  · show (buildAccumulate eo emails).node_sent i = _
    unfold buildAccumulate
    rw [nodeSent_fold]
    simp
  · show (buildAccumulate eo emails).node_received i = _
    unfold buildAccumulate
    rw [nodeReceived_fold]
    simp

theorem C10_witness :
    ∃ nd, ("a@enron.com", nd) ∈ (build_graph [eAB, eBA] 1 true).nodes ∧
      nd.total_sent = (emailPairs true [eAB, eBA]).countP
        (fun p => p.1.sender = "a@enron.com") ∧
      nd.total_received = (emailPairs true [eAB, eBA]).countP
        (fun p => p.2 = "a@enron.com") := by
  have hmem : ("a@enron.com",
      ({ name := "A", email := "a@enron.com", total_sent := 1,
                 total_received := 1 } : NodeData)) ∈ (build_graph [eAB, eBA] 1 true).nodes := by
    have hnodes : (build_graph [eAB, eBA] 1 true).nodes =
        [("a@enron.com", ({ name := "A", email := "a@enron.com", total_sent := 1,
                            total_received := 1 } : NodeData)),
         ("b@enron.com", ({ name := "B", email := "b@enron.com", total_sent := 1,
                            total_received := 1 } : NodeData))] := rfl
    rw [hnodes]
    exact List.mem_cons_self ..
  exact ⟨_, hmem, C10_sent_received_counts [eAB, eBA] 1 true _ _ hmem⟩

/-- Input of the C7 scenario: three emails each way between two
enron addresses. -/
def emailsC7 : List ParsedEmail := [eAB, eAB, eAB, eBA, eBA, eBA]

/-- The graph the C7 scenario builds with threshold 3. -/
def gC7 : DiGraph := build_graph emailsC7 3 true

/-- C7: three messages A→B and three messages B→A with threshold 3 yield
exactly the two nodes A and B and exactly the two edges A→B and B→A, each
with `email_count` 3. -/
theorem C7_two_by_two_scenario :
    nodeIds gC7 = ["a@enron.com", "b@enron.com"] ∧
    gC7.edges.map Prod.fst =
      [("a@enron.com", "b@enron.com"), ("b@enron.com", "a@enron.com")] ∧
    (lookupEdge gC7 ("a@enron.com", "b@enron.com")).map EdgeData.email_count = some 3 ∧
    (lookupEdge gC7 ("b@enron.com", "a@enron.com")).map EdgeData.email_count = some 3 := by
  refine ⟨by decide, by decide, ?_, ?_⟩ <;> decide

/-! ### Sentiment enrichment (sentiment/analyzer.py) -/

/-- Python `round(x, 4)` modelled as round-half-up to four decimal digits
(Python rounds exact half-ties to even; the two differ only on such ties,
which no claim depends on). -/
def round4 (x : ℚ) : ℚ := (round (x * 10000) : ℤ) / 10000

/-- Python `round(x, 6)`. -/
def round6 (x : ℚ) : ℚ := (round (x * 1000000) : ℤ) / 1000000

/-- Python `round(x, 1)`. -/
def round1 (x : ℚ) : ℚ := (round (x * 10) : ℤ) / 10

/-- The (email, recipient) iterations of the sentiment aggregation loop
(sentiment/analyzer.py lines 56-66): every recipient of every email except
the sender itself.  No domain filter is applied in this loop. -/
def enrichPairs (emails : List ParsedEmail) : List (ParsedEmail × String) :=
  emails.flatMap (fun em =>
    ((em.recipients_to ++ em.recipients_cc ++ em.recipients_bcc).filter
      (fun r => r ≠ em.sender)).map (fun r => (em, r)))

/-- The polarity list `edge_sentiments[k]`: one entry per qualifying
(email, recipient) pair whose (sender, recipient) key is `k`, in traversal
order. -/
def edgeSentList (emails : List ParsedEmail) (polarity : String → ℚ)
    (k : String × String) : List ℚ :=
  ((enrichPairs emails).filter (fun p => (p.1.sender, p.2) = k)).map
    (fun p => polarity p.1.body)

/-- The polarity list `node_sent_sentiments[n]`: one entry per email sent
by `n` (appended once per email, outside the recipient loop). -/
def sentList (emails : List ParsedEmail) (polarity : String → ℚ) (n : String) :
    List ℚ :=
  (emails.filter (fun em => em.sender = n)).map (fun em => polarity em.body)

/-- The polarity list `node_received_sentiments[n]`: one entry per
qualifying (email, recipient) pair whose recipient is `n`. -/
def receivedList (emails : List ParsedEmail) (polarity : String → ℚ) (n : String) :
    List ℚ :=
  ((enrichPairs emails).filter (fun p => p.2 = n)).map (fun p => polarity p.1.body)

/-- Python `sum(l) / len(l)`. -/
def meanQ (l : List ℚ) : ℚ := l.sum / l.length

/-- The first enrichment pass applied to one edge (analyzer.py lines
69-73): set `sentiment` to the rounded mean polarity and `sentiment_count`
to the number of contributing messages, leaving edges without messages
untouched. -/
def sentimentPass (emails : List ParsedEmail) (polarity : String → ℚ)
    (e : (String × String) × EdgeData) : (String × String) × EdgeData :=
  let s := edgeSentList emails polarity e.1
  if s.isEmpty then e
  else (e.1, { e.2 with sentiment := some (round4 (meanQ s)),
                        sentiment_count := s.length })

/-- The edge list after the first enrichment pass. -/
def withSentEdges (g : DiGraph) (emails : List ParsedEmail)
    (polarity : String → ℚ) : List ((String × String) × EdgeData) :=
  g.edges.map (sentimentPass emails polarity)

/-- `G[v][u].get("sentiment", 0) if G.has_edge(v, u) else 0` for edge key
`k = (u, v)` (analyzer.py line 86), read from an edge list. -/
def reverseSentiment (l : List ((String × String) × EdgeData))
    (k : String × String) : ℚ :=
  match (l.find? (fun e2 => e2.1 = (k.2, k.1))).map Prod.snd with
  | some d => d.sentiment.getD 0
  | none => 0

/-- The asymmetry pass applied to one edge (analyzer.py lines 84-87). -/
def asymPass (l : List ((String × String) × EdgeData))
    (e : (String × String) × EdgeData) : (String × String) × EdgeData :=
  (e.1, { e.2 with sentiment_asymmetry := some (round4 |e.2.sentiment.getD 0 - reverseSentiment l e.1|) })

/-- `enrich_graph_with_sentiment` (sentiment/analyzer.py lines 33-89).
The polarity scorer (`analyze_sentiment`, an external TextBlob call) is a
parameter; the spec fixes only its range [-1, 1].  First the per-edge mean
polarity is written (only on edges with at least one contributing
message), then the per-node averages, then `sentiment_asymmetry` is
computed from the just-written sentiments, reading an absent sentiment —
including the case of an absent reverse edge — as 0. -/
def enrich_graph_with_sentiment (g : DiGraph) (emails : List ParsedEmail)
    (polarity : String → ℚ) : DiGraph :=
  let withSent := withSentEdges g emails polarity
  let nodes := g.nodes.map (fun p =>
    let ss := sentList emails polarity p.1
    let rs := receivedList emails polarity p.1
    (p.1, { p.2 with
            avg_sent_sentiment := some (if ss.isEmpty then 0 else round4 (meanQ ss)),
            avg_received_sentiment := some (if rs.isEmpty then 0 else round4 (meanQ rs)) }))
  { nodes := nodes, edges := withSent.map (asymPass withSent) }

theorem find?_map_key_preserving {α : Type} (l : List ((String × String) × α))
    (F : ((String × String) × α) → ((String × String) × α))
    (hF : ∀ x, (F x).1 = x.1) (k : String × String) :
    (l.map F).find? (fun e => e.1 = k) = (l.find? (fun e => e.1 = k)).map F := by
  induction l with
  | nil => simp
  | cons x t ih =>
    by_cases h : x.1 = k
    · simp [List.find?, hF x, h]
    · simp only [List.map_cons, List.find?, hF x]
      simp [h, ih]

theorem lookupEdge_enrich (g : DiGraph) (emails : List ParsedEmail)
    (polarity : String → ℚ) (k : String × String) :
    lookupEdge (enrich_graph_with_sentiment g emails polarity) k =
      ((withSentEdges g emails polarity).find? (fun e2 => e2.1 = k)).map
        (fun e => (asymPass (withSentEdges g emails polarity) e).2) := by
  simp only [lookupEdge, enrich_graph_with_sentiment]
  rw [find?_map_key_preserving (withSentEdges g emails polarity)
    (asymPass (withSentEdges g emails polarity)) (fun x => rfl) k]
  rw [Option.map_map]
  rfl

theorem reverse_through_asym (g : DiGraph) (emails : List ParsedEmail)
    (polarity : String → ℚ) (k : String × String) :
    (match lookupEdge (enrich_graph_with_sentiment g emails polarity) (k.2, k.1) with
     | some d2 => d2.sentiment.getD 0
     | none => 0) = reverseSentiment (withSentEdges g emails polarity) k := by
  rw [lookupEdge_enrich]
  unfold reverseSentiment
  cases h : (withSentEdges g emails polarity).find? (fun e2 => e2.1 = (k.2, k.1)) with
  | none => simp [h]
  | some y => simp [h, asymPass]

/-- C2 (amended): for every edge of the enriched graph,
`sentiment_asymmetry` is the 4-digit rounding of the absolute difference
between the edge's sentiment and the reverse edge's sentiment, where an
absent sentiment — in particular an absent reverse edge — contributes 0;
hence when the reverse edge does not exist the asymmetry equals
`round4 |sentiment|`, which is nonzero whenever the edge's own sentiment
is, rather than 0 as claimed. -/
theorem C2_sentiment_asymmetry (g : DiGraph) (emails : List ParsedEmail)
    (polarity : String → ℚ) :
    ∀ k d, (k, d) ∈ (enrich_graph_with_sentiment g emails polarity).edges →
      d.sentiment_asymmetry = some (round4 |d.sentiment.getD 0 -
        (match lookupEdge (enrich_graph_with_sentiment g emails polarity) (k.2, k.1) with
         | some d2 => d2.sentiment.getD 0
         | none => 0)|) ∧
      (lookupEdge (enrich_graph_with_sentiment g emails polarity) (k.2, k.1) = none →
        d.sentiment_asymmetry = some (round4 |d.sentiment.getD 0|)) := by
  intro k d hm
  simp only [enrich_graph_with_sentiment] at hm
  obtain ⟨e, he, heq⟩ := List.mem_map.1 hm
  injection heq with h1 h2
  subst h1
  subst h2
  constructor
  · rw [reverse_through_asym g emails polarity e.1]
  · intro hnone
    rw [lookupEdge_enrich] at hnone
    have hfind : (withSentEdges g emails polarity).find? (fun e2 => e2.1 = (e.1.2, e.1.1))
        = none := by
      cases h : (withSentEdges g emails polarity).find? (fun e2 => e2.1 = (e.1.2, e.1.1)) with
      | none => rfl
      | some y =>
        rw [h] at hnone
        simp at hnone
    have hrs : reverseSentiment (withSentEdges g emails polarity) e.1 = 0 := by
      unfold reverseSentiment
      rw [hfind]
      rfl
    show some (round4 |e.2.sentiment.getD 0 -
        reverseSentiment (withSentEdges g emails polarity) e.1|) =
      some (round4 |e.2.sentiment.getD 0|)
    rw [hrs, sub_zero]

/-- C2 witness/counterexample graph: a single edge a→b, no reverse edge. -/
def gC2 : DiGraph := { nodes := [], edges := [(("a", "b"), {})] }

/-- C2 witness/counterexample email from a to b. -/
def eC2 : ParsedEmail :=
  { sender := "a", recipients_to := ["b"], recipients_cc := [], recipients_bcc := [],
    subject := "s", body := "x", date := none }

/-- C2 polarity scorer: every body scores 1/2 (within the documented
range of the lexical scorer). -/
def polC2 : String → ℚ := fun _ => 1/2

/-- The enriched C2 graph. -/
def gC2enr : DiGraph := enrich_graph_with_sentiment gC2 [eC2] polC2

theorem C2_witness :
    ∃ d, (("a", "b"), d) ∈ gC2enr.edges ∧
      d.sentiment_asymmetry = some (round4 |d.sentiment.getD 0|) := by
  have hmem : (("a", "b"),
      (asymPass (withSentEdges gC2 [eC2] polC2)
        (sentimentPass [eC2] polC2 (("a", "b"), ({} : EdgeData)))).2) ∈ gC2enr.edges := by
    show _ ∈ [asymPass (withSentEdges gC2 [eC2] polC2)
      (sentimentPass [eC2] polC2 (("a", "b"), ({} : EdgeData)))]
    exact List.mem_singleton.2 rfl
  have hnone : lookupEdge gC2enr ("b", "a") = none := by
    rw [show gC2enr = enrich_graph_with_sentiment gC2 [eC2] polC2 from rfl,
      lookupEdge_enrich]
    rfl
  exact ⟨_, hmem, (C2_sentiment_asymmetry gC2 [eC2] polC2 ("a", "b") _ hmem).2 hnone⟩

theorem C2_counterexample :
    (lookupEdge gC2enr ("a", "b")).map EdgeData.sentiment_asymmetry =
      some (some (1/2)) ∧
    lookupEdge gC2enr ("b", "a") = none := by
  constructor
  · rw [show gC2enr = enrich_graph_with_sentiment gC2 [eC2] polC2 from rfl,
      lookupEdge_enrich]
    have hfind : (withSentEdges gC2 [eC2] polC2).find? (fun e2 => e2.1 = ("a", "b"))
        = some (sentimentPass [eC2] polC2 (("a", "b"), ({} : EdgeData))) := rfl
    rw [hfind]
    show some (some (round4 |(sentimentPass [eC2] polC2
      (("a", "b"), ({} : EdgeData))).2.sentiment.getD 0 -
        reverseSentiment (withSentEdges gC2 [eC2] polC2) ("a", "b")|)) = _
    have hsp : (sentimentPass [eC2] polC2
        (("a", "b"), ({} : EdgeData))).2.sentiment = some (round4 (meanQ [1/2])) := rfl
    have hrev : reverseSentiment (withSentEdges gC2 [eC2] polC2) ("a", "b") = 0 := rfl
    rw [hsp, hrev]
    have : round4 (meanQ [1/2]) = 1/2 := by
      norm_num [round4, meanQ, round_eq]
    rw [this]
    simp only [Option.getD_some, sub_zero]
    rw [show |(1 : ℚ)/2| = 1/2 from by norm_num]
    norm_num [round4, round_eq]
  · rw [show gC2enr = enrich_graph_with_sentiment gC2 [eC2] polC2 from rfl,
      lookupEdge_enrich]
    rfl

/-! ### Sentiment summary (sentiment/analyzer.py get_sentiment_summary) -/

/-- One entry of the top-negative / top-positive lists. -/
structure SentEdgeEntry where
  source : String
  target : String
  sentiment : ℚ
  source_name : String
  target_name : String
deriving DecidableEq

/-- The summary dict returned by `get_sentiment_summary`; the five
distribution buckets are flattened into fields. -/
structure SentimentSummary where
  avg_sentiment : ℚ
  total_edges_with_sentiment : Nat
  very_negative : Nat
  negative : Nat
  neutral : Nat
  positive : Nat
  very_positive : Nat
  top_negative : List SentEdgeEntry
  top_positive : List SentEdgeEntry

/-- An entry of the candidate lists (analyzer.py lines 103-117). -/
def mkSentEntry (g : DiGraph) (u v : String) (s : ℚ) : SentEdgeEntry :=
  { source := u, target := v, sentiment := s,
    source_name := nodeName g u, target_name := nodeName g v }

/-- The edges carrying a sentiment value, as (source, target, sentiment),
in edge order. -/
def sentimentEdges (g : DiGraph) : List (String × String × ℚ) :=
  g.edges.filterMap (fun e => e.2.sentiment.map (fun s => (e.1.1, e.1.2, s)))

/-- Ascending comparison by sentiment: `sort(key=lambda x: x.sentiment)`. -/
def negOrder (x y : SentEdgeEntry) : Prop := x.sentiment ≤ y.sentiment

/-- Descending comparison by sentiment: `sort(..., reverse=True)`. -/
def posOrder (x y : SentEdgeEntry) : Prop := y.sentiment ≤ x.sentiment

instance : DecidableRel negOrder :=
  fun x y => inferInstanceAs (Decidable (x.sentiment ≤ y.sentiment))

instance : DecidableRel posOrder :=
  fun x y => inferInstanceAs (Decidable (y.sentiment ≤ x.sentiment))

instance : IsTotal SentEdgeEntry negOrder :=
  ⟨fun a b => le_total a.sentiment b.sentiment⟩

instance : IsTotal SentEdgeEntry posOrder :=
  ⟨fun a b => le_total b.sentiment a.sentiment⟩

instance : IsTrans SentEdgeEntry negOrder :=
  ⟨fun _ _ _ h1 h2 => le_trans h1 h2⟩

instance : IsTrans SentEdgeEntry posOrder :=
  ⟨fun _ _ _ h1 h2 => le_trans h2 h1⟩

/-- `get_sentiment_summary` (analyzer.py lines 92-145): collect the
sentiments, put edges with sentiment below -0.1 into the negative
candidate list and (via the `elif`) edges with sentiment above 0.2 into
the positive candidate list, average, bucket into five polarity classes,
sort the candidates (ascending / descending by sentiment; Python's stable
sort is modelled by insertion sort) and keep the first ten of each. -/
def get_sentiment_summary (g : DiGraph) : SentimentSummary :=
  let se := sentimentEdges g
  let all_sentiments := se.map (fun t => t.2.2)
  let negative_edges := (se.filter (fun t => t.2.2 < -(1/10))).map
    (fun t => mkSentEntry g t.1 t.2.1 t.2.2)
  let positive_edges := (se.filter (fun t => ¬ t.2.2 < -(1/10) ∧ (1/5 : ℚ) < t.2.2)).map
    (fun t => mkSentEntry g t.1 t.2.1 t.2.2)
  let avg := if all_sentiments.isEmpty then 0 else meanQ all_sentiments
  { avg_sentiment := round4 avg,
    total_edges_with_sentiment := all_sentiments.length,
    very_negative := all_sentiments.countP (fun s => s < -(3/10)),
    negative := all_sentiments.countP (fun s => ¬ s < -(3/10) ∧ s < -(1/10)),
    neutral := all_sentiments.countP (fun s => ¬ s < -(1/10) ∧ s < 1/10),
    positive := all_sentiments.countP (fun s => ¬ s < 1/10 ∧ s < 3/10),
    very_positive := all_sentiments.countP (fun s => ¬ s < 3/10),
    top_negative := (List.insertionSort negOrder negative_edges).take 10,
    top_positive := (List.insertionSort posOrder positive_edges).take 10 }

/-- The negative candidate list of `get_sentiment_summary` (analyzer.py:
edges with sentiment < -0.1), in edge order. -/
def negCandidates (g : DiGraph) : List SentEdgeEntry :=
  ((sentimentEdges g).filter (fun t => t.2.2 < -(1/10))).map
    (fun t => mkSentEntry g t.1 t.2.1 t.2.2)

/-- The positive candidate list of `get_sentiment_summary` (analyzer.py:
the `elif` admits edges with sentiment > 0.2 that did not enter the
negative list), in edge order. -/
def posCandidates (g : DiGraph) : List SentEdgeEntry :=
  ((sentimentEdges g).filter (fun t => ¬ t.2.2 < -(1/10) ∧ (1/5 : ℚ) < t.2.2)).map
    (fun t => mkSentEntry g t.1 t.2.1 t.2.2)

/-- C9 (amended): the candidate lists are cut at sentiment > 0.2
(positive, via the `elif`) and < -0.1 (negative) — not at 0 — and the
top lists are exactly the (up to) 10 highest- resp. lowest-sentiment
candidates: each top list is the 10-element initial segment of a sorted
permutation of its candidate list (so its length is min 10 (number of
candidates)), every candidate left out is dominated by every listed
entry, and whenever an edge with sentiment above 0.2 exists, an edge
attaining the maximum sentiment appears in the top-positive list. -/
theorem C9_summary_top_lists (g : DiGraph) :
    (∀ entry ∈ (get_sentiment_summary g).top_positive, (1/5 : ℚ) < entry.sentiment) ∧
    (∀ entry ∈ (get_sentiment_summary g).top_negative, entry.sentiment < -(1/10)) ∧
    (∃ lp : List SentEdgeEntry, lp.Perm (posCandidates g) ∧ lp.Sorted posOrder ∧
      (get_sentiment_summary g).top_positive = lp.take 10) ∧
    (∃ ln : List SentEdgeEntry, ln.Perm (negCandidates g) ∧ ln.Sorted negOrder ∧
      (get_sentiment_summary g).top_negative = ln.take 10) ∧
    (get_sentiment_summary g).top_positive.length = min 10 (posCandidates g).length ∧
    (get_sentiment_summary g).top_negative.length = min 10 (negCandidates g).length ∧
    (∀ e ∈ posCandidates g, e ∉ (get_sentiment_summary g).top_positive →
      ∀ e2 ∈ (get_sentiment_summary g).top_positive, e.sentiment ≤ e2.sentiment) ∧
    (∀ e ∈ negCandidates g, e ∉ (get_sentiment_summary g).top_negative →
      ∀ e2 ∈ (get_sentiment_summary g).top_negative, e2.sentiment ≤ e.sentiment) ∧
    (∀ s : ℚ, (∃ t ∈ sentimentEdges g, t.2.2 = s) → (1/5 : ℚ) < s →
      (∀ t ∈ sentimentEdges g, t.2.2 ≤ s) →
      ∃ entry ∈ (get_sentiment_summary g).top_positive, entry.sentiment = s) := by
  have hpos_mem : ∀ entry, entry ∈ ((sentimentEdges g).filter
        (fun t => ¬ t.2.2 < -(1/10) ∧ (1/5 : ℚ) < t.2.2)).map
        (fun t => mkSentEntry g t.1 t.2.1 t.2.2) →
      (1/5 : ℚ) < entry.sentiment ∧ ∃ t ∈ sentimentEdges g, entry.sentiment = t.2.2 := by
    intro entry hmem
    obtain ⟨t, htf, rfl⟩ := List.mem_map.1 hmem
    obtain ⟨hts, htc⟩ := List.mem_filter.1 htf
    have := of_decide_eq_true htc
    exact ⟨this.2, ⟨t, hts, rfl⟩⟩
  refine ⟨?_, ?_, ?_, ?_, ?_, ?_, ?_, ?_, ?_⟩
  · intro entry hmem
    have h1 : entry ∈ List.insertionSort posOrder (((sentimentEdges g).filter
        (fun t => ¬ t.2.2 < -(1/10) ∧ (1/5 : ℚ) < t.2.2)).map
        (fun t => mkSentEntry g t.1 t.2.1 t.2.2)) := List.mem_of_mem_take hmem
    exact (hpos_mem entry ((List.perm_insertionSort _ _).mem_iff.1 h1)).1
  · intro entry hmem
    have h1 : entry ∈ List.insertionSort negOrder (((sentimentEdges g).filter
        (fun t => t.2.2 < -(1/10))).map
        (fun t => mkSentEntry g t.1 t.2.1 t.2.2)) := List.mem_of_mem_take hmem
    have h2 := (List.perm_insertionSort _ _).mem_iff.1 h1
    obtain ⟨t, htf, rfl⟩ := List.mem_map.1 h2
    obtain ⟨hts, htc⟩ := List.mem_filter.1 htf
    exact of_decide_eq_true htc
  · exact ⟨List.insertionSort posOrder (posCandidates g),
      List.perm_insertionSort posOrder (posCandidates g),
      List.sorted_insertionSort posOrder (posCandidates g), rfl⟩
  · exact ⟨List.insertionSort negOrder (negCandidates g),
      List.perm_insertionSort negOrder (negCandidates g),
      List.sorted_insertionSort negOrder (negCandidates g), rfl⟩
  · show ((List.insertionSort posOrder (posCandidates g)).take 10).length
      = min 10 (posCandidates g).length
    rw [List.length_take, List.length_insertionSort]
  · show ((List.insertionSort negOrder (negCandidates g)).take 10).length
      = min 10 (negCandidates g).length
    rw [List.length_take, List.length_insertionSort]
  · intro e he hnot e2 h2
    have hperm := List.perm_insertionSort posOrder (posCandidates g)
    have hsorted := List.sorted_insertionSort posOrder (posCandidates g)
    have hlp : e ∈ List.insertionSort posOrder (posCandidates g) := hperm.mem_iff.2 he
    have hdrop : e ∈ (List.insertionSort posOrder (posCandidates g)).drop 10 := by
      rcases List.mem_append.1
          (by rw [List.take_append_drop]; exact hlp :
            e ∈ (List.insertionSort posOrder (posCandidates g)).take 10
              ++ (List.insertionSort posOrder (posCandidates g)).drop 10) with h | h
      · exact absurd h hnot
      · exact h
    have htake : e2 ∈ (List.insertionSort posOrder (posCandidates g)).take 10 := h2
    exact List.Sorted.rel_of_mem_take_of_mem_drop hsorted htake hdrop
  · intro e he hnot e2 h2
    have hperm := List.perm_insertionSort negOrder (negCandidates g)
    have hsorted := List.sorted_insertionSort negOrder (negCandidates g)
    have hlp : e ∈ List.insertionSort negOrder (negCandidates g) := hperm.mem_iff.2 he
    have hdrop : e ∈ (List.insertionSort negOrder (negCandidates g)).drop 10 := by
      rcases List.mem_append.1
          (by rw [List.take_append_drop]; exact hlp :
            e ∈ (List.insertionSort negOrder (negCandidates g)).take 10
              ++ (List.insertionSort negOrder (negCandidates g)).drop 10) with h | h
      · exact absurd h hnot
      · exact h
    have htake : e2 ∈ (List.insertionSort negOrder (negCandidates g)).take 10 := h2
    exact List.Sorted.rel_of_mem_take_of_mem_drop hsorted htake hdrop
  · intro s hex hgt hmax
    obtain ⟨t0, ht0, ht0s⟩ := hex
    set poslist := ((sentimentEdges g).filter
      (fun t => ¬ t.2.2 < -(1/10) ∧ (1/5 : ℚ) < t.2.2)).map
      (fun t => mkSentEntry g t.1 t.2.1 t.2.2) with hposlist
    have h0 : mkSentEntry g t0.1 t0.2.1 t0.2.2 ∈ poslist := by
      rw [hposlist]
      refine List.mem_map.2 ⟨t0, List.mem_filter.2 ⟨ht0, ?_⟩, rfl⟩
      rw [decide_eq_true_eq, ht0s]
      constructor
      · intro hc
        linarith
      · exact hgt
    have hsorted := List.sorted_insertionSort posOrder poslist
    have hperm := List.perm_insertionSort posOrder poslist
    cases hsort : List.insertionSort posOrder poslist with
    | nil =>
      rw [hsort] at hperm
      rw [hperm.symm.mem_iff] at h0
      simp at h0
    | cons hd tl =>
      have hd_mem : hd ∈ poslist := by
        rw [← hperm.mem_iff, hsort]
        exact List.mem_cons_self ..
      have hd_le : hd.sentiment ≤ s := by
        obtain ⟨-, t1, ht1, he1⟩ := hpos_mem hd hd_mem
        rw [he1]
        exact hmax t1 ht1
      have hd_ge : s ≤ hd.sentiment := by
        have h0s : mkSentEntry g t0.1 t0.2.1 t0.2.2 ∈ List.insertionSort posOrder poslist :=
          hperm.symm.mem_iff.1 h0
        rw [hsort] at h0s
        rcases List.mem_cons.1 h0s with heq | htl
        · rw [← heq]
          show s ≤ t0.2.2
          rw [ht0s]
        · have := List.rel_of_sorted_cons (hsort ▸ hsorted) _ htl
          show s ≤ hd.sentiment
          calc s = t0.2.2 := ht0s.symm
          _ ≤ hd.sentiment := this
      refine ⟨hd, ?_, le_antisymm hd_le hd_ge⟩
      show hd ∈ (List.insertionSort posOrder poslist).take 10
      rw [hsort]
      exact List.mem_cons_self ..

/-- C9 witness graph: one edge with sentiment 1/2. -/
def gC9w : DiGraph :=
  { nodes := [], edges := [(("a", "b"), { sentiment := some (1/2) })] }

theorem C9_witness :
    ∃ entry ∈ (get_sentiment_summary gC9w).top_positive, entry.sentiment = 1/2 := by
  have hse : sentimentEdges gC9w = [("a", "b", (1/2 : ℚ))] := rfl
  refine (C9_summary_top_lists gC9w).2.2.2.2.2.2.2.2 (1/2) ⟨("a", "b", (1/2 : ℚ)), ?_, rfl⟩
    (by norm_num) ?_
  · rw [hse]
    exact List.mem_singleton.2 rfl
  · intro t ht
    rw [hse] at ht
    rw [List.mem_singleton.1 ht]

/-- C9 counterexample graph: one edge with positive sentiment 3/20 = 0.15,
which is positive but below the 0.2 cut of the positive candidate list. -/
def gC9c : DiGraph :=
  { nodes := [], edges := [(("a", "b"), { sentiment := some (3/20) })] }

theorem C9_counterexample :
    (get_sentiment_summary gC9c).top_positive = [] ∧
    (lookupEdge gC9c ("a", "b")).map EdgeData.sentiment = some (some (3/20)) ∧
    (0 : ℚ) < 3/20 := by
  refine ⟨?_, rfl, by norm_num⟩
  have hse : sentimentEdges gC9c = [("a", "b", (3/20 : ℚ))] := rfl
  show ((List.insertionSort posOrder (((sentimentEdges gC9c).filter
      (fun t => ¬ t.2.2 < -(1/10) ∧ (1/5 : ℚ) < t.2.2)).map
      (fun t => mkSentEntry gC9c t.1 t.2.1 t.2.2))).take 10) = []
  rw [hse]
  have hfilter : ([("a", "b", (3/20 : ℚ))].filter
      (fun t => ¬ t.2.2 < -(1/10) ∧ (1/5 : ℚ) < t.2.2)) = [] := by
    rw [List.filter_eq_nil_iff]
    intro t ht
    rw [List.mem_singleton.1 ht]
    simp only [decide_eq_true_eq, not_and, not_lt]
    intro h
    norm_num
  rw [hfilter]
  rfl

/-! ### Edge weights (graph/weights.py compute_weights) -/

/-- `counts_arr.max()`: the maximum `email_count` over the edges (counts
are nonnegative, so folding from 0 agrees with numpy's max on the
nonempty list). -/
def maxCount (l : List ((String × String) × EdgeData)) : Nat :=
  (l.map (fun e => e.2.email_count)).foldl max 0

/-- The latest `last_email` over all edges (weights.py lines 33-41);
`none` when no edge has a timestamp. -/
def latestDate (g : DiGraph) : Option Int :=
  g.edges.foldl (fun acc e =>
    match acc, e.2.last_email with
    | none, o => o
    | some a, none => some a
    | some a, some t => some (max a t)) none

/-- The recency factor of one edge (weights.py lines 52-60):
`exp(-days_ago / decay_days)` from the edge's last timestamp to the
reference day, or the neutral 1/2 when the edge has no timestamp. -/
noncomputable def recencyOf (ref : Int) (decay_days : ℝ) (d : EdgeData) : ℝ :=
  match d.last_email with
  | none => 1/2
  | some t => Real.exp (-(((ref - t : Int) : ℝ)) / decay_days)

/-- The body of `compute_weights`' per-edge loop (weights.py lines
49-85): composite weight from normalized frequency, recency, and the
neutral-defaulted sentiment and response-efficiency attributes. -/
noncomputable def weightEdge (mc : Nat) (ref : Int)
    (alpha beta gamma delta decay_days : ℝ)
    (e : (String × String) × EdgeData) : (String × String) × EdgeData :=
  let nf : ℝ := if 0 < mc then (e.2.email_count : ℝ) / mc else 0
  let rc : ℝ := recencyOf ref decay_days e.2
  let st : ℝ := match e.2.sentiment with
    | none => 1/2
    | some q => (q : ℝ)
  let rEff : ℝ := match e.2.response_efficiency with
    | none => 1/2
    | some q => (q : ℝ)
  (e.1, { e.2 with
          weight := some (alpha * nf + beta * rc + gamma * st + delta * rEff),
          norm_frequency := some nf,
          norm_recency := some rc })

/-- `compute_weights` (graph/weights.py).  The reference day defaults to
the latest `last_email` over the edges; when no edge has a timestamp the
code falls back to `datetime.now()`, which is then never read (every edge
takes the neutral-recency branch), so that fallback is modelled by day 0.
Timezone normalization changes no value in this model. -/
noncomputable def compute_weights (g : DiGraph)
    (alpha beta gamma delta : ℝ) (reference_date : Option Int)
    (decay_days : ℝ) : DiGraph :=
  if g.edges.isEmpty then g
  else
    let ref : Int := match reference_date with
      | some r => r
      | none => (latestDate g).getD 0
    { nodes := g.nodes,
      edges := g.edges.map
        (weightEdge (maxCount g.edges) ref alpha beta gamma delta decay_days) }

theorem foldl_max_init_le (xs : List Nat) (init : Nat) :
    init ≤ xs.foldl max init := by
  induction xs generalizing init with
  | nil => exact le_refl _
  | cons h t ih => exact le_trans (le_max_left init h) (ih (max init h))

theorem le_foldl_max (xs : List Nat) (init : Nat) :
    ∀ x ∈ xs, x ≤ xs.foldl max init := by
  induction xs generalizing init with
  | nil => intro x hx; simp at hx
  | cons h t ih =>
    intro x hx
    rcases List.mem_cons.1 hx with rfl | hxt
    · exact le_trans (le_max_right init x) (foldl_max_init_le t (max init x))
    · exact ih (max init h) x hxt

theorem count_le_maxCount (l : List ((String × String) × EdgeData)) :
    ∀ e ∈ l, e.2.email_count ≤ maxCount l := by
  intro e he
  exact le_foldl_max _ 0 _ (List.mem_map.2 ⟨e, he, rfl⟩)

theorem latest_fold_bound (l : List ((String × String) × EdgeData)) :
    ∀ acc : Option Int,
      (∀ e ∈ l, ∀ t : Int, e.2.last_email = some t →
        ∃ L, (l.foldl (fun acc e =>
          match acc, e.2.last_email with
          | none, o => o
          | some a, none => some a
          | some a, some t => some (max a t)) acc) = some L ∧ t ≤ L) ∧
      (∀ a : Int, acc = some a →
        ∃ L, (l.foldl (fun acc e =>
          match acc, e.2.last_email with
          | none, o => o
          | some a, none => some a
          | some a, some t => some (max a t)) acc) = some L ∧ a ≤ L) := by
  induction l with
  | nil =>
    intro acc
    refine ⟨fun e he => by simp at he, fun a ha => ⟨a, by simpa using ha, le_refl a⟩⟩
  | cons x t ih =>
    intro acc
    constructor
    · intro e he s hs
      rcases List.mem_cons.1 he with rfl | het
      · rcases acc with - | a
        · rw [List.foldl_cons]
          have := (ih (match (none : Option Int), e.2.last_email with
            | none, o => o
            | some a, none => some a
            | some a, some t => some (max a t))).2
          rw [hs] at this ⊢
          exact this s rfl
        · rw [List.foldl_cons]
          have := (ih (match (some a : Option Int), e.2.last_email with
            | none, o => o
            | some a, none => some a
            | some a, some t => some (max a t))).2
          rw [hs] at this ⊢
          obtain ⟨L, hL, hle⟩ := this (max a s) rfl
          exact ⟨L, hL, le_trans (le_max_right a s) hle⟩
      · exact (ih _).1 e het s hs
    · intro a ha
      subst ha
      rw [List.foldl_cons]
      rcases hx : x.2.last_email with - | s
      · have := (ih (match (some a : Option Int), x.2.last_email with
          | none, o => o
          | some a, none => some a
          | some a, some t => some (max a t))).2
        rw [hx] at this
        exact this a rfl
      · have := (ih (match (some a : Option Int), x.2.last_email with
          | none, o => o
          | some a, none => some a
          | some a, some t => some (max a t))).2
        rw [hx] at this
        obtain ⟨L, hL, hle⟩ := this (max a s) rfl
        exact ⟨L, hL, le_trans (le_max_left a s) hle⟩

theorem latestDate_ge (g : DiGraph) :
    ∀ e ∈ g.edges, ∀ t : Int, e.2.last_email = some t →
      ∃ L, latestDate g = some L ∧ t ≤ L :=
  (latest_fold_bound g.edges none).1

/-- The component bounds of a single weight: with the default reference
(`none`), each normalized frequency and recency lies in `[0, 1]`. -/
theorem weight_components_bounded (g : DiGraph)
    (e : (String × String) × EdgeData) (he : e ∈ g.edges) :
    (0 ≤ (if 0 < maxCount g.edges then ((e.2.email_count : ℝ) / maxCount g.edges) else 0) ∧
      (if 0 < maxCount g.edges then ((e.2.email_count : ℝ) / maxCount g.edges) else 0) ≤ 1) ∧
    (0 ≤ recencyOf ((latestDate g).getD 0) 180 e.2 ∧
      recencyOf ((latestDate g).getD 0) 180 e.2 ≤ 1) := by
  constructor
  · by_cases hmc : 0 < maxCount g.edges
    · rw [if_pos hmc]
      constructor
      · positivity
      · rw [div_le_one (by exact_mod_cast hmc)]
        exact_mod_cast count_le_maxCount g.edges e he
    · rw [if_neg hmc]
      norm_num
  · unfold recencyOf
    rcases hle : e.2.last_email with - | t
    · norm_num
    · obtain ⟨L, hL, hl⟩ := latestDate_ge g e he t hle
      rw [hL]
      constructor
      · exact (Real.exp_pos _).le
      · rw [Real.exp_le_one_iff]
        have h1 : (0 : ℝ) ≤ ((L - t : Int) : ℝ) := by
          exact_mod_cast Int.sub_nonneg.2 hl
        have h2 : (0 : ℝ) < 180 := by norm_num
        show -(((Option.getD (some L) 0 - t : Int) : ℝ)) / 180 ≤ 0
        simp only [Option.getD_some]
        rw [neg_div]
        exact neg_nonpos.2 (div_nonneg h1 h2.le)

/-- Weight range after one `compute_weights` pass with the default
coefficients and reference, for a graph whose edges carry a sentiment in
`[-1, 1]` (or none) and no `response_efficiency` attribute (nothing in the
repository ever sets one). -/
theorem compute_weights_range (g : DiGraph)
    (hs : ∀ k d, (k, d) ∈ g.edges →
      (d.sentiment = none ∨ ∃ q, d.sentiment = some q ∧ -1 ≤ q ∧ q ≤ 1) ∧
      d.response_efficiency = none) :
    ∀ k d, (k, d) ∈ (compute_weights g (2/5) (1/5) (1/5) (1/5) none 180).edges →
      ∃ w, d.weight = some w ∧ -(1/10) ≤ w ∧ w ≤ 1 ∧
        (d.sentiment = none → 0 ≤ w) := by
  intro k d hm
  by_cases hne : g.edges.isEmpty
  · rw [compute_weights, if_pos hne] at hm
    rw [List.isEmpty_iff.1 hne] at hm
    simp at hm
  · rw [compute_weights, if_neg hne] at hm
    obtain ⟨e, he, heq⟩ := List.mem_map.1 hm
    injection heq with h1 h2
    subst h1
    subst h2
    obtain ⟨⟨hnf0, hnf1⟩, hrc0, hrc1⟩ := weight_components_bounded g e he
    obtain ⟨hsent, hreff⟩ := hs e.1 e.2 he
    have hstb : (-1 : ℝ) ≤ (match e.2.sentiment with
          | none => (1/2 : ℝ) | some q => (q : ℝ)) ∧
        (match e.2.sentiment with | none => (1/2 : ℝ) | some q => (q : ℝ)) ≤ 1 := by
      rcases hsent with hnone | ⟨q, hq, hq1, hq2⟩
      · rw [hnone]
        norm_num
      · rw [hq]
        constructor
        · show (-1 : ℝ) ≤ (q : ℝ)
          exact_mod_cast hq1
        · show ((q : ℝ)) ≤ 1
          exact_mod_cast hq2
    have hst0 : e.2.sentiment = none → (match e.2.sentiment with
        | none => (1/2 : ℝ) | some q => (q : ℝ)) = 1/2 := by
      intro h
      rw [h]
    have hreb : (match e.2.response_efficiency with
        | none => (1/2 : ℝ) | some q => (q : ℝ)) = 1/2 := by
      rw [hreff]
    refine ⟨_, rfl, ?_, ?_, ?_⟩
    · show -(1/10 : ℝ) ≤ 2/5 *
          (if 0 < maxCount g.edges then ((e.2.email_count : ℝ) / maxCount g.edges) else 0)
        + 1/5 * recencyOf ((latestDate g).getD 0) 180 e.2
        + 1/5 * (match e.2.sentiment with | none => (1/2 : ℝ) | some q => (q : ℝ))
        + 1/5 * (match e.2.response_efficiency with | none => (1/2 : ℝ) | some q => (q : ℝ))
      rw [hreb]
      linarith [hstb.1, hstb.2]
    · show 2/5 *
          (if 0 < maxCount g.edges then ((e.2.email_count : ℝ) / maxCount g.edges) else 0)
        + 1/5 * recencyOf ((latestDate g).getD 0) 180 e.2
        + 1/5 * (match e.2.sentiment with | none => (1/2 : ℝ) | some q => (q : ℝ))
        + 1/5 * (match e.2.response_efficiency with | none => (1/2 : ℝ) | some q => (q : ℝ))
          ≤ 1
      rw [hreb]
      linarith [hstb.1, hstb.2]
    · intro hnone
      show (0 : ℝ) ≤ 2/5 *
          (if 0 < maxCount g.edges then ((e.2.email_count : ℝ) / maxCount g.edges) else 0)
        + 1/5 * recencyOf ((latestDate g).getD 0) 180 e.2
        + 1/5 * (match e.2.sentiment with | none => (1/2 : ℝ) | some q => (q : ℝ))
        + 1/5 * (match e.2.response_efficiency with | none => (1/2 : ℝ) | some q => (q : ℝ))
      rw [hreb, hst0 hnone]
      linarith

theorem meanQ_bounds {l : List ℚ} (hne : l ≠ []) (h : ∀ x ∈ l, -1 ≤ x ∧ x ≤ 1) :
    -1 ≤ meanQ l ∧ meanQ l ≤ 1 := by
  have hlen : 0 < (l.length : ℚ) := by
    have := List.length_pos.2 hne
    exact_mod_cast this
  constructor
  · rw [meanQ, le_div_iff₀ hlen]
    have hsum := List.card_nsmul_le_sum l (-1 : ℚ) (fun x hx => (h x hx).1)
    rw [nsmul_eq_mul] at hsum
    linarith
  · rw [meanQ, div_le_one hlen]
    have hsum := List.sum_le_card_nsmul l (1 : ℚ) (fun x hx => (h x hx).2)
    rw [nsmul_eq_mul] at hsum
    linarith

theorem round4_bounds {x : ℚ} (h1 : -1 ≤ x) (h2 : x ≤ 1) :
    -1 ≤ round4 x ∧ round4 x ≤ 1 := by
  unfold round4
  rw [round_eq]
  constructor
  · rw [le_div_iff₀ (by norm_num : (0 : ℚ) < 10000)]
    have hf : (-10000 : ℤ) ≤ ⌊x * 10000 + 1/2⌋ := by
      apply Int.le_floor.2
      push_cast
      nlinarith
    calc (-1 : ℚ) * 10000 = ((-10000 : ℤ) : ℚ) := by norm_num
    _ ≤ _ := by exact_mod_cast hf
  · rw [div_le_iff₀ (by norm_num : (0 : ℚ) < 10000)]
    have hf : ⌊x * 10000 + 1/2⌋ ≤ 10000 := by
      have hlt : ⌊x * 10000 + 1/2⌋ < 10001 := by
        apply Int.floor_lt.2
        push_cast
        nlinarith
      omega
    calc ((⌊x * 10000 + 1/2⌋ : ℤ) : ℚ) ≤ ((10000 : ℤ) : ℚ) := by exact_mod_cast hf
    _ = 1 * 10000 := by norm_num

/-- The enrichment writes only sentiments inside `[-1, 1]` (given the
polarity scorer respects its documented range) and never touches
`response_efficiency`. -/
theorem enrich_edges_bounded (g : DiGraph) (emails : List ParsedEmail)
    (polarity : String → ℚ)
    (hg : ∀ k d, (k, d) ∈ g.edges → d.sentiment = none ∧ d.response_efficiency = none)
    (hpol : ∀ b, -1 ≤ polarity b ∧ polarity b ≤ 1) :
    ∀ k d, (k, d) ∈ (enrich_graph_with_sentiment g emails polarity).edges →
      (d.sentiment = none ∨ ∃ q, d.sentiment = some q ∧ -1 ≤ q ∧ q ≤ 1) ∧
      d.response_efficiency = none := by
  intro k d hm
  simp only [enrich_graph_with_sentiment] at hm
  obtain ⟨e, he, heq⟩ := List.mem_map.1 hm
  injection heq with h1 h2
  subst h1
  subst h2
  obtain ⟨e0, he0, heq0⟩ := List.mem_map.1 he
  subst heq0
  show ((sentimentPass emails polarity e0).2.sentiment = none ∨
      ∃ q, (sentimentPass emails polarity e0).2.sentiment = some q ∧ -1 ≤ q ∧ q ≤ 1) ∧
    (sentimentPass emails polarity e0).2.response_efficiency = none
  by_cases hemp : (edgeSentList emails polarity e0.1).isEmpty
  · have hsp : sentimentPass emails polarity e0 = e0 := by
      rw [sentimentPass, if_pos hemp]
    rw [hsp]
    exact ⟨Or.inl (hg e0.1 e0.2 he0).1, (hg e0.1 e0.2 he0).2⟩
  · have hsp : sentimentPass emails polarity e0 =
        (e0.1, { e0.2 with
          sentiment := some (round4 (meanQ (edgeSentList emails polarity e0.1))),
          sentiment_count := (edgeSentList emails polarity e0.1).length }) := by
      rw [sentimentPass, if_neg hemp]
    rw [hsp]
    have hnnil : edgeSentList emails polarity e0.1 ≠ [] := by
      intro hc
      rw [hc] at hemp
      exact hemp rfl
    have hxs : ∀ x ∈ edgeSentList emails polarity e0.1, -1 ≤ x ∧ x ≤ 1 := by
      intro x hx
      obtain ⟨p, -, hpx⟩ := List.mem_map.1 hx
      rw [← hpx]
      exact hpol p.1.body
    obtain ⟨hm1, hm2⟩ := meanQ_bounds hnnil hxs
    obtain ⟨hr1, hr2⟩ := round4_bounds hm1 hm2
    exact ⟨Or.inr ⟨_, rfl, hr1, hr2⟩, (hg e0.1 e0.2 he0).2⟩

/-- `compute_weights` changes no `sentiment` or `response_efficiency`
attribute: the second pass sees exactly the enriched values. -/
theorem compute_weights_preserves (g : DiGraph) (a b c dl : ℝ)
    (rd : Option Int) (dd : ℝ) :
    ∀ k d, (k, d) ∈ (compute_weights g a b c dl rd dd).edges →
      ∃ d0, (k, d0) ∈ g.edges ∧ d.sentiment = d0.sentiment ∧
        d.response_efficiency = d0.response_efficiency := by
  intro k d hm
  by_cases hne : g.edges.isEmpty
  · rw [compute_weights.eq_def, if_pos hne] at hm
    exact ⟨d, hm, rfl, rfl⟩
  · rw [compute_weights.eq_def, if_neg hne] at hm
    obtain ⟨e, he, heq⟩ := List.mem_map.1 hm
    injection heq with h1 h2
    subst h1
    subst h2
    exact ⟨e.2, he, rfl, rfl⟩

/-- C1 (amended): after the first weight pass (default coefficients and
reference, neutral sentiment 0.5) every edge weight lies in [0, 1]; after
the second pass, which uses the enriched sentiments, every edge weight
lies in [-1/10, 1] — it can drop below 0 when an edge carries a negative
sentiment, so [0, 1] holds for the first pass only. -/
theorem C1_weight_ranges (g : DiGraph) (emails : List ParsedEmail)
    (polarity : String → ℚ)
    (hfresh : ∀ k d, (k, d) ∈ g.edges → d.sentiment = none ∧ d.response_efficiency = none)
    (hpol : ∀ b, -1 ≤ polarity b ∧ polarity b ≤ 1) :
    (∀ k d, (k, d) ∈ (compute_weights g (2/5) (1/5) (1/5) (1/5) none 180).edges →
      ∃ w, d.weight = some w ∧ 0 ≤ w ∧ w ≤ 1) ∧
    (∀ k d, (k, d) ∈ (compute_weights
        (enrich_graph_with_sentiment
          (compute_weights g (2/5) (1/5) (1/5) (1/5) none 180) emails polarity)
        (2/5) (1/5) (1/5) (1/5) none 180).edges →
      ∃ w, d.weight = some w ∧ -(1/10) ≤ w ∧ w ≤ 1) := by
  constructor
  · intro k d hm
    obtain ⟨w, hw, hlo, hhi, hz⟩ := compute_weights_range g
      (fun k2 d2 hd2 => ⟨Or.inl (hfresh k2 d2 hd2).1, (hfresh k2 d2 hd2).2⟩) k d hm
    obtain ⟨d0, hd0, hds, -⟩ := compute_weights_preserves g _ _ _ _ _ _ k d hm
    exact ⟨w, hw, hz (hds.trans (hfresh k d0 hd0).1), hhi⟩
  · intro k d hm
    have hmid : ∀ k2 d2, (k2, d2) ∈ (enrich_graph_with_sentiment
        (compute_weights g (2/5) (1/5) (1/5) (1/5) none 180) emails polarity).edges →
        (d2.sentiment = none ∨ ∃ q, d2.sentiment = some q ∧ -1 ≤ q ∧ q ≤ 1) ∧
        d2.response_efficiency = none := by
      apply enrich_edges_bounded _ _ _ ?_ hpol
      intro k2 d2 hd2
      obtain ⟨d0, hd0, hds, hdr⟩ := compute_weights_preserves g _ _ _ _ _ _ k2 d2 hd2
      exact ⟨hds.trans (hfresh _ _ hd0).1, hdr.trans (hfresh _ _ hd0).2⟩
    obtain ⟨w, hw, hlo, hhi, -⟩ := compute_weights_range _ hmid k d hm
    exact ⟨w, hw, hlo, hhi⟩

/-- C1 witness graph: one freshly-built edge, three messages, no
timestamp. -/
def gC1w : DiGraph := { nodes := [], edges := [(("a", "b"), { email_count := 3 })] }

theorem C1_witness :
    ∃ k d w, (k, d) ∈ (compute_weights gC1w (2/5) (1/5) (1/5) (1/5) none 180).edges ∧
      d.weight = some w ∧ 0 ≤ w ∧ w ≤ 1 := by
  have hfresh : ∀ k d, (k, d) ∈ gC1w.edges →
      d.sentiment = none ∧ d.response_efficiency = none := by
    intro k d hd
    have h := List.mem_singleton.1 hd
    injection h with h1 h2
    subst h2
    exact ⟨rfl, rfl⟩
  have hpol : ∀ b : String, -1 ≤ (fun _ : String => (0 : ℚ)) b ∧
      (fun _ : String => (0 : ℚ)) b ≤ 1 := by
    intro b
    norm_num
  have hmem : (("a", "b"), (weightEdge (maxCount gC1w.edges) ((latestDate gC1w).getD 0)
      (2/5) (1/5) (1/5) (1/5) 180 (("a", "b"), ({ email_count := 3 } : EdgeData))).2)
      ∈ (compute_weights gC1w (2/5) (1/5) (1/5) (1/5) none 180).edges := by
    rw [compute_weights.eq_def, if_neg (by decide)]
    exact List.mem_map.2 ⟨(("a", "b"), { email_count := 3 }), List.mem_singleton.2 rfl, rfl⟩
  obtain ⟨w, hw, hlo, hhi⟩ := (C1_weight_ranges gC1w [] (fun _ => 0) hfresh hpol).1 _ _ hmem
  exact ⟨_, _, w, hmem, hw, hlo, hhi⟩

/-! Concrete two-edge pipeline run on which the second pass produces a
negative weight.  Edge a→b dominates the frequency normalization (count
100, day 730); edge b→c is rare (count 3), stale (day 0, two years before
the reference) and acquires sentiment -1 from the enrichment. -/

/-- C1 counterexample base graph. -/
def gC1c : DiGraph :=
  { nodes := [],
    edges := [(("a", "b"), { email_count := 100, last_email := some 730 }),
              (("b", "c"), { email_count := 3, last_email := some 0 })] }

/-- C1 counterexample email: b writes to c. -/
def eC1 : ParsedEmail :=
  { sender := "b", recipients_to := ["c"], recipients_cc := [], recipients_bcc := [],
    subject := "s", body := "awful", date := none }

/-- C1 counterexample polarity scorer: every body scores -1, the lower
end of the documented range. -/
def polC1 : String → ℚ := fun _ => -1

/-- First weight pass of the counterexample pipeline. -/
noncomputable def gC1pass1 : DiGraph :=
  compute_weights gC1c (2/5) (1/5) (1/5) (1/5) none 180

/-- Enrichment step of the counterexample pipeline. -/
noncomputable def gC1enr : DiGraph :=
  enrich_graph_with_sentiment gC1pass1 [eC1] polC1

/-- Second weight pass of the counterexample pipeline. -/
noncomputable def gC1final : DiGraph :=
  compute_weights gC1enr (2/5) (1/5) (1/5) (1/5) none 180

theorem sentimentPass_key (emails : List ParsedEmail) (pol : String → ℚ)
    (x : (String × String) × EdgeData) : (sentimentPass emails pol x).1 = x.1 := by
  unfold sentimentPass
  by_cases h : (edgeSentList emails pol x.1).isEmpty <;> simp [h]

theorem latestFold_map (l : List ((String × String) × EdgeData)) (acc : Option Int) :
    l.foldl (fun acc e => match acc, e.2.last_email with
      | none, o => o | some a, none => some a | some a, some t => some (max a t)) acc
    = (l.map (fun e => e.2.last_email)).foldl (fun acc o => match acc, o with
      | none, o => o | some a, none => some a | some a, some t => some (max a t)) acc := by
  induction l generalizing acc with
  | nil => rfl
  | cons x t ih => rw [List.foldl_cons, List.map_cons, List.foldl_cons, ih]

theorem map_comp_congr {β : Type} (l : List ((String × String) × EdgeData))
    (F : ((String × String) × EdgeData) → ((String × String) × EdgeData))
    (g : ((String × String) × EdgeData) → β) (hF : ∀ e ∈ l, g (F e) = g e) :
    (l.map F).map g = l.map g := by
  rw [List.map_map]
  exact List.map_congr_left (fun e he => hF e he)

theorem sentimentPass_count_last (emails : List ParsedEmail) (pol : String → ℚ)
    (x : (String × String) × EdgeData) :
    (sentimentPass emails pol x).2.email_count = x.2.email_count ∧
    (sentimentPass emails pol x).2.last_email = x.2.last_email := by
  unfold sentimentPass
  by_cases h : (edgeSentList emails pol x.1).isEmpty <;> simp [h]

theorem C1_counterexample :
    ∃ w : ℝ, (lookupEdge gC1final ("b", "c")).bind EdgeData.weight = some w ∧ w < 0 := by
  have hpass1 : gC1pass1.edges =
      gC1c.edges.map (weightEdge 100 730 (2/5) (1/5) (1/5) (1/5) 180) := by
    rw [gC1pass1, compute_weights.eq_def, if_neg (by decide)]
    rfl
  have hcnt : gC1enr.edges.map (fun e => e.2.email_count) = [100, 3] := by
    show ((withSentEdges gC1pass1 [eC1] polC1).map
      (asymPass (withSentEdges gC1pass1 [eC1] polC1))).map (fun e => e.2.email_count) = _
    rw [map_comp_congr _ (asymPass (withSentEdges gC1pass1 [eC1] polC1))
      (fun e => e.2.email_count) (fun e _ => rfl)]
    show (gC1pass1.edges.map (sentimentPass [eC1] polC1)).map (fun e => e.2.email_count) = _
    rw [map_comp_congr _ (sentimentPass [eC1] polC1) (fun e => e.2.email_count)
      (fun e _ => (sentimentPass_count_last [eC1] polC1 e).1)]
    rw [hpass1]
    rw [map_comp_congr _ (weightEdge 100 730 (2/5) (1/5) (1/5) (1/5) 180)
      (fun e => e.2.email_count) (fun e _ => rfl)]
    rfl
  have hlast : gC1enr.edges.map (fun e => e.2.last_email) = [some 730, some 0] := by
    show ((withSentEdges gC1pass1 [eC1] polC1).map
      (asymPass (withSentEdges gC1pass1 [eC1] polC1))).map (fun e => e.2.last_email) = _
    rw [map_comp_congr _ (asymPass (withSentEdges gC1pass1 [eC1] polC1))
      (fun e => e.2.last_email) (fun e _ => rfl)]
    show (gC1pass1.edges.map (sentimentPass [eC1] polC1)).map (fun e => e.2.last_email) = _
    rw [map_comp_congr _ (sentimentPass [eC1] polC1) (fun e => e.2.last_email)
      (fun e _ => (sentimentPass_count_last [eC1] polC1 e).2)]
    rw [hpass1]
    rw [map_comp_congr _ (weightEdge 100 730 (2/5) (1/5) (1/5) (1/5) 180)
      (fun e => e.2.last_email) (fun e _ => rfl)]
    rfl
  have hmaxC : maxCount gC1enr.edges = 100 := by
    unfold maxCount
    rw [hcnt]
    rfl
  have hlate : latestDate gC1enr = some 730 := by
    unfold latestDate
    rw [latestFold_map, hlast]
    rfl
  have hne2 : ¬ gC1enr.edges.isEmpty = true := by
    intro hc
    rw [List.isEmpty_iff] at hc
    rw [hc] at hcnt
    simp at hcnt
  have hfind2 : gC1enr.edges.find? (fun e => e.1 = ("b", "c")) =
      some (asymPass (withSentEdges gC1pass1 [eC1] polC1)
        (sentimentPass [eC1] polC1 (weightEdge 100 730 (2/5) (1/5) (1/5) (1/5) 180
          (("b", "c"), ({ email_count := 3, last_email := some 0 } : EdgeData))))) := by
    show ((withSentEdges gC1pass1 [eC1] polC1).map
      (asymPass (withSentEdges gC1pass1 [eC1] polC1))).find? (fun e => e.1 = ("b", "c")) = _
    rw [find?_map_key_preserving (withSentEdges gC1pass1 [eC1] polC1)
      (asymPass (withSentEdges gC1pass1 [eC1] polC1)) (fun x => rfl)]
    have hws : (withSentEdges gC1pass1 [eC1] polC1).find? (fun e => e.1 = ("b", "c")) =
        some (sentimentPass [eC1] polC1 (weightEdge 100 730 (2/5) (1/5) (1/5) (1/5) 180
          (("b", "c"), ({ email_count := 3, last_email := some 0 } : EdgeData)))) := by
      show (gC1pass1.edges.map (sentimentPass [eC1] polC1)).find?
        (fun e => e.1 = ("b", "c")) = _
      rw [find?_map_key_preserving gC1pass1.edges (sentimentPass [eC1] polC1)
        (sentimentPass_key [eC1] polC1)]
      rw [hpass1]
      rw [find?_map_key_preserving gC1c.edges
        (weightEdge 100 730 (2/5) (1/5) (1/5) (1/5) 180) (fun x => rfl)]
      rfl
    rw [hws]
    rfl
  have hfin : lookupEdge gC1final ("b", "c") =
      (gC1enr.edges.find? (fun e => e.1 = ("b", "c"))).map
        (fun e => (weightEdge 100 730 (2/5) (1/5) (1/5) (1/5) 180 e).2) := by
    show ((compute_weights gC1enr (2/5) (1/5) (1/5) (1/5) none 180).edges.find?
      (fun e => e.1 = ("b", "c"))).map Prod.snd = _
    rw [compute_weights.eq_def, if_neg hne2]
    show ((gC1enr.edges.map (weightEdge (maxCount gC1enr.edges)
      ((latestDate gC1enr).getD 0) (2/5) (1/5) (1/5) (1/5) 180)).find?
        (fun e => e.1 = ("b", "c"))).map Prod.snd = _
    rw [hmaxC, hlate]
    rw [find?_map_key_preserving gC1enr.edges
      (weightEdge 100 ((some (730 : Int)).getD 0) (2/5) (1/5) (1/5) (1/5) 180) (fun x => rfl)]
    rw [Option.map_map]
    rfl
  have hwval : (lookupEdge gC1final ("b", "c")).bind EdgeData.weight =
      some ((2/5 : ℝ) * (((3 : ℕ) : ℝ) / ((100 : ℕ) : ℝ))
        + (1/5) * Real.exp (-(((730 - 0 : Int) : ℝ)) / 180)
        + (1/5) * ((round4 (meanQ [(-1 : ℚ)]) : ℚ) : ℝ)
        + (1/5) * (1/2 : ℝ)) := by
    rw [hfin, hfind2]
    rfl
  have hr4 : round4 (meanQ [(-1 : ℚ)]) = -1 := by
    norm_num [round4, meanQ, round_eq]
  rw [hr4] at hwval
  have hexp0 : Real.exp (-(((730 - 0 : Int) : ℝ)) / 180) ≤ Real.exp (-4) := by
    apply Real.exp_le_exp.2
    push_cast
    norm_num
  have h2 : (2 : ℝ) < Real.exp 1 := by
    have := Real.exp_one_gt_d9
    linarith
  have h16 : (16 : ℝ) < Real.exp 4 := by
    have he4 : Real.exp 4 = (Real.exp 1) ^ (4 : ℕ) := by
      rw [← Real.exp_nat_mul]
      norm_num
    rw [he4]
    calc (16 : ℝ) = 2 ^ (4 : ℕ) := by norm_num
    _ < (Real.exp 1) ^ (4 : ℕ) := by
      apply pow_lt_pow_left₀ h2 (by norm_num)
      norm_num
  have hexp4 : Real.exp (-4) < 1/16 := by
    rw [Real.exp_neg]
    have hinv : (Real.exp 4)⁻¹ < (16 : ℝ)⁻¹ := by
      rw [inv_lt_inv₀ (Real.exp_pos 4) (by norm_num)]
      exact h16
    calc (Real.exp 4)⁻¹ < (16 : ℝ)⁻¹ := hinv
    _ = 1/16 := by norm_num
  refine ⟨_, hwval, ?_⟩
  have hE : Real.exp (-(((730 - 0 : Int) : ℝ)) / 180) < 1/16 :=
    lt_of_le_of_lt hexp0 hexp4
  push_cast
  push_cast at hE
  nlinarith [hE]

/-! ### Dead-man-switch criticality (metrics/dead_man_switch.py) -/

/-- Undirected neighbors of `n` (for weak-connectivity reachability). -/
def undirAdj (g : DiGraph) (n : String) : List String :=
  g.edges.filterMap (fun e =>
    if e.1.1 = n then some e.1.2 else if e.1.2 = n then some e.1.1 else none)

/-- One breadth round: add every undirected neighbor of the seen set. -/
def expandReach (g : DiGraph) (seen : List String) : List String :=
  seen.foldl (fun acc n => (undirAdj g n).foldl insertNew acc) seen

/-- Fuelled reachability closure; `g.nodes.length` rounds suffice. -/
def reachAux (g : DiGraph) : Nat → List String → List String
  | 0, seen => seen
  | k + 1, seen => reachAux g k (expandReach g seen)

/-- The weakly-connected component containing `n`. -/
def component (g : DiGraph) (n : String) : List String :=
  reachAux g g.nodes.length [n]

/-- `networkx.weakly_connected_components`: one component per first-seen
representative, in node order. -/
def weakly_connected_components (g : DiGraph) : List (List String) :=
  g.nodes.foldl (fun comps p =>
    if comps.any (fun c => p.1 ∈ c) then comps else comps ++ [component g p.1]) []

/-- `len(max(components, key=len))`. -/
def largestComponentSize (comps : List (List String)) : Nat :=
  (comps.map List.length).foldl max 0

/-- `G_removed = G.copy(); G_removed.remove_node(node)`. -/
def removeNode (g : DiGraph) (n : String) : DiGraph :=
  { nodes := g.nodes.filter (fun p => p.1 ≠ n),
    edges := g.edges.filter (fun e => e.1.1 ≠ n ∧ e.1.2 ≠ n) }

/-- `max(d.values()) if d else fallback` for a node-indexed value list. -/
def maxValues (l : List ℚ) (fallback : ℚ) : ℚ :=
  match l with
  | [] => fallback
  | h :: t => t.foldl max h

/-- One row of the dead-man-switch ranking. -/
structure DmsRecord where
  id : String
  name : String
  dms_score : ℚ
  betweenness : ℚ
  eigenvector : ℚ
  redundancy : ℚ
  impact_pct : ℚ
deriving DecidableEq

/-- Descending order by score: `results.sort(key=dms_score, reverse=True)`. -/
def dmsOrder (x y : DmsRecord) : Prop := y.dms_score ≤ x.dms_score

instance : DecidableRel dmsOrder :=
  fun x y => inferInstanceAs (Decidable (y.dms_score ≤ x.dms_score))

instance : IsTotal DmsRecord dmsOrder :=
  ⟨fun a b => le_total b.dms_score a.dms_score⟩

instance : IsTrans DmsRecord dmsOrder :=
  ⟨fun _ _ _ h1 h2 => le_trans h2 h1⟩

/-- `compute_dead_man_switch` (metrics/dead_man_switch.py).  The
betweenness and eigenvector maps are parameters standing for the two
networkx calls (`betweenness_centrality`, and the eigenvector try/except
chain, which always produces a value for every node); the removal
simulation, normalization, scoring and sorting are concrete.  Note the
guard only tests for zero nodes. -/
def compute_dead_man_switch (betw eigen : DiGraph → String → ℚ) (g : DiGraph)
    (w_betweenness w_eigenvector w_redundancy : ℚ) : List DmsRecord :=
  if g.nodes.isEmpty then []
  else
    let max_betw := maxValues (g.nodes.map (fun p => betw g p.1)) 1
    let max_eigen := maxValues (g.nodes.map (fun p => eigen g p.1)) 1
    let total := g.nodes.length
    let results := g.nodes.map (fun p =>
      let norm_betw : ℚ := if 0 < max_betw then betw g p.1 / max_betw else 0
      let norm_eigen : ℚ := if 0 < max_eigen then eigen g p.1 / max_eigen else 0
      let removed := removeNode g p.1
      let reachable_pct : ℚ :=
        if 0 < removed.nodes.length then
          (largestComponentSize (weakly_connected_components removed) : ℚ)
            / ((total : ℚ) - 1)
        else 0
      let dms := w_betweenness * norm_betw + w_eigenvector * norm_eigen
        - w_redundancy * reachable_pct
      { id := p.1, name := nodeName g p.1, dms_score := round4 dms,
        betweenness := round6 (betw g p.1), eigenvector := round6 (eigen g p.1),
        redundancy := round4 reachable_pct,
        impact_pct := round1 ((1 - reachable_pct) * 100) })
    List.insertionSort dmsOrder results

/-- C3 (amended): a zero-node graph yields an empty criticality list, but
in general the result has exactly one record per node — so a one-node
graph yields a single record, not an empty list. -/
theorem C3_dms_record_count (betw eigen : DiGraph → String → ℚ) (g : DiGraph)
    (w1 w2 w3 : ℚ) :
    (g.nodes = [] → compute_dead_man_switch betw eigen g w1 w2 w3 = []) ∧
    (compute_dead_man_switch betw eigen g w1 w2 w3).length = g.nodes.length := by
  constructor
  · intro h
    rw [compute_dead_man_switch.eq_def, if_pos (by rw [h]; rfl)]
  · by_cases h : g.nodes.isEmpty
    · rw [compute_dead_man_switch.eq_def, if_pos h]
      rw [List.isEmpty_iff.1 h]
      rfl
    · rw [compute_dead_man_switch.eq_def, if_neg h]
      rw [(List.perm_insertionSort dmsOrder _).length_eq]
      exact List.length_map _ _

theorem C3_witness :
    compute_dead_man_switch (fun _ _ => 0) (fun _ _ => 1)
      { nodes := [], edges := [] } (2/5) (3/10) (3/10) = [] :=
  (C3_dms_record_count (fun _ _ => 0) (fun _ _ => 1)
    { nodes := [], edges := [] } (2/5) (3/10) (3/10)).1 rfl

/-- C3 counterexample graph: exactly one node.  The oracle values 0 and 1
are networkx's actual betweenness and eigenvector values on a one-node
graph. -/
def gC3 : DiGraph := { nodes := [("a", {})], edges := [] }

theorem C3_counterexample :
    compute_dead_man_switch (fun _ _ => 0) (fun _ _ => 1) gC3 (2/5) (3/10) (3/10) ≠ [] := by
  rw [compute_dead_man_switch.eq_def, if_neg (by decide)]
  simp [gC3, List.insertionSort]

/-! ### Organizational health (metrics/health.py) -/

/-- The community-detection output consumed by `compute_health`:
`partition` maps node → community id (an association list, read only via
`get`); `communities` and `modularity` feed the stats block. -/
structure CommunitiesInput where
  partition : List (String × Nat)
  communities : List (List String)
  modularity : ℚ

/-- `partition.get(u)`. -/
def partitionGet (c : CommunitiesInput) (u : String) : Option Nat :=
  (c.partition.find? (fun p => p.1 = u)).map Prod.snd

/-- The reported sub-scores (each multiplied by 100, rounded to 1
digit). -/
structure HealthSubScores where
  connectivity : ℝ
  bottleneck_risk : ℝ
  silo_score : ℝ
  efficiency : ℝ

/-- The dict returned by `compute_health` (the stats block is reduced to
the two counts every claim mentions). -/
structure HealthResult where
  health_score : ℝ
  grade : String
  sub_scores : HealthSubScores
  node_count : Nat
  edge_count : Nat

/-- Python `round(x, 1)` on the health score, as round-half-up. -/
noncomputable def round1R (x : ℝ) : ℝ := ((round (x * 10) : ℤ) : ℝ) / 10

/-- `max(components, key=len)`: the first component of maximal size. -/
def largestComponent (comps : List (List String)) : List String :=
  match comps with
  | [] => []
  | h :: t => t.foldl (fun best c => if best.length < c.length then c else best) h

/-- The population Gini coefficient of the sorted betweenness values
(health.py lines 64-70). -/
def giniOf (vals : List ℚ) : ℚ :=
  if 0 < vals.length ∧ 0 < vals.sum then
    ((vals.enum.map (fun p =>
      (2 * ((p.1 : ℚ) + 1) - (vals.length : ℚ) - 1) * p.2)).sum)
      / ((vals.length : ℚ) * vals.sum)
  else 0

/-- `G_undirected.subgraph(largest_wcc)`: the restriction handed to the
average-path-length call. -/
def restrictTo (g : DiGraph) (ns : List String) : DiGraph :=
  { nodes := g.nodes.filter (fun p => p.1 ∈ ns),
    edges := g.edges.filter (fun e => e.1.1 ∈ ns ∧ e.1.2 ∈ ns) }

open Classical in
/-- The grade if/elif chain (health.py lines 121-130). -/
noncomputable def gradeOf (s : ℝ) : String :=
  if 90 ≤ s then "A"
  else if 80 ≤ s then "B"
  else if 65 ≤ s then "C"
  else if 50 ≤ s then "D"
  else "F"

open Classical in
/-- `compute_health` (metrics/health.py).  The betweenness map, the
average shortest path length of the giant-component subgraph (`none`
models the caught `NetworkXError`, giving the 0.5 fallback) and the
average clustering coefficient of the undirected projection are
parameters standing for the networkx calls; density, components, Gini,
silo ratio, the weighted combination, rounding, clamping and grading are
concrete. -/
noncomputable def compute_health (betw : DiGraph → String → ℚ)
    (avgPath : DiGraph → Option ℚ) (clustering : DiGraph → ℚ)
    (g : DiGraph) (comm : CommunitiesInput)
    (w_connectivity w_bottleneck w_silo w_efficiency : ℝ) : HealthResult :=
  let n := g.nodes.length
  let m := g.edges.length
  if n < 2 then
    { health_score := 0, grade := "F",
      sub_scores := { connectivity := 0, bottleneck_risk := 1,
                      silo_score := 1, efficiency := 0 },
      node_count := n, edge_count := m }
  else
    let density : ℚ := (m : ℚ) / ((n : ℚ) * ((n : ℚ) - 1))
    let gcc := largestComponent (weakly_connected_components g)
    let gcc_ratio : ℚ := (gcc.length : ℚ) / (n : ℚ)
    let density_score : ℝ :=
      if 0 < density then min 1 (Real.logb 10 ((density : ℝ) * 100 + 1) / 2) else 0
    let connectivity : ℝ := (2/5) * density_score + (3/5) * (gcc_ratio : ℝ)
    let bvals := g.nodes.map (fun p => betw g p.1)
    let max_betweenness : ℚ := maxValues bvals 0
    let vals := List.insertionSort (fun a b : ℚ => a ≤ b) bvals
    let gini : ℚ := giniOf vals
    let bottleneck_risk : ℚ := (1/2) * max_betweenness + (1/2) * gini
    let silo_score : ℚ :=
      if comm.partition.isEmpty then 1/2
      else if 0 < m then
        1 - ((g.edges.countP
          (fun e => ¬ partitionGet comm e.1.1 = partitionGet comm e.1.2)) : ℚ) / (m : ℚ)
      else 1
    let path_score : ℚ :=
      match avgPath (restrictTo g gcc) with
      | some L => max 0 (1 - (L - 2) / 8)
      | none => 1/2
    let efficiency : ℚ := (3/5) * path_score + (2/5) * clustering g
    let health_raw : ℝ := w_connectivity * connectivity
      + w_bottleneck * (1 - (bottleneck_risk : ℝ))
      + w_silo * (1 - (silo_score : ℝ))
      + w_efficiency * (efficiency : ℝ)
    let health_score : ℝ := max 0 (min 100 (round1R (health_raw * 100)))
    { health_score := health_score,
      grade := gradeOf health_score,
      sub_scores := { connectivity := round1R (connectivity * 100),
                      bottleneck_risk := round1R ((bottleneck_risk : ℝ) * 100),
                      silo_score := round1R ((silo_score : ℝ) * 100),
                      efficiency := round1R ((efficiency : ℝ) * 100) },
      node_count := n, edge_count := m }

theorem gradeOf_spec (s : ℝ) :
    (gradeOf s = "A" ↔ 90 ≤ s) ∧ (gradeOf s = "B" ↔ 80 ≤ s ∧ s < 90) ∧
    (gradeOf s = "C" ↔ 65 ≤ s ∧ s < 80) ∧ (gradeOf s = "D" ↔ 50 ≤ s ∧ s < 65) ∧
    (gradeOf s = "F" ↔ s < 50) := by
  unfold gradeOf
  by_cases h90 : 90 ≤ s
  · rw [if_pos h90]
    refine ⟨by simp [h90], ?_, ?_, ?_, ?_⟩ <;>
      exact ⟨fun h => by simp at h, fun h => absurd h (by push_neg; intros; linarith)⟩
  · rw [if_neg h90]
    push_neg at h90
    by_cases h80 : 80 ≤ s
    · rw [if_pos h80]
      refine ⟨?_, by simp [h80, h90], ?_, ?_, ?_⟩ <;>
        exact ⟨fun h => by simp at h, fun h => absurd h (by push_neg; intros; linarith)⟩
    · rw [if_neg h80]
      push_neg at h80
      by_cases h65 : 65 ≤ s
      · rw [if_pos h65]
        refine ⟨?_, ?_, by simp [h65, h80], ?_, ?_⟩ <;>
          exact ⟨fun h => by simp at h, fun h => absurd h (by push_neg; intros; linarith)⟩
      · rw [if_neg h65]
        push_neg at h65
        by_cases h50 : 50 ≤ s
        · rw [if_pos h50]
          refine ⟨?_, ?_, ?_, by simp [h50, h65], ?_⟩ <;>
            exact ⟨fun h => by simp at h, fun h => absurd h (by push_neg; intros; linarith)⟩
        · rw [if_neg h50]
          push_neg at h50
          refine ⟨?_, ?_, ?_, ?_, by simp [h50]⟩ <;>
            exact ⟨fun h => by simp at h, fun h => absurd h (by push_neg; intros; linarith)⟩

/-- C5: for every graph, community input, oracle values and weights, the
health score lies in [0, 100]; the letter grade is exactly the one the
thresholds dictate on the returned score (≥90 A, ≥80 B, ≥65 C, ≥50 D,
else F); and a graph with fewer than 2 nodes yields score 0 and grade
F. -/
theorem C5_health_score_and_grade (betw : DiGraph → String → ℚ)
    (avgPath : DiGraph → Option ℚ) (clustering : DiGraph → ℚ)
    (g : DiGraph) (comm : CommunitiesInput) (w1 w2 w3 w4 : ℝ) :
    let r := compute_health betw avgPath clustering g comm w1 w2 w3 w4
    (0 ≤ r.health_score ∧ r.health_score ≤ 100) ∧
    ((r.grade = "A" ↔ 90 ≤ r.health_score) ∧
     (r.grade = "B" ↔ 80 ≤ r.health_score ∧ r.health_score < 90) ∧
     (r.grade = "C" ↔ 65 ≤ r.health_score ∧ r.health_score < 80) ∧
     (r.grade = "D" ↔ 50 ≤ r.health_score ∧ r.health_score < 65) ∧
     (r.grade = "F" ↔ r.health_score < 50)) ∧
    (g.nodes.length < 2 → r.health_score = 0 ∧ r.grade = "F") := by
  intro r
  by_cases hn : g.nodes.length < 2
  · have hr : r.health_score = 0 ∧ r.grade = "F" := by
      constructor
      · show (compute_health betw avgPath clustering g comm w1 w2 w3 w4).health_score = 0
        rw [compute_health.eq_def, if_pos hn]
      · show (compute_health betw avgPath clustering g comm w1 w2 w3 w4).grade = "F"
        rw [compute_health.eq_def, if_pos hn]
    rw [hr.1, hr.2]
    refine ⟨⟨le_refl 0, by norm_num⟩, ⟨?_, ?_, ?_, ?_, ?_⟩, fun _ => ⟨rfl, rfl⟩⟩
    · exact ⟨fun h => by simp at h, fun h => absurd h (by norm_num)⟩
    · exact ⟨fun h => by simp at h, fun h => absurd h (by norm_num)⟩
    · exact ⟨fun h => by simp at h, fun h => absurd h (by norm_num)⟩
    · exact ⟨fun h => by simp at h, fun h => absurd h (by norm_num)⟩
    · exact ⟨fun _ => by norm_num, fun _ => rfl⟩
  · have hr : ∃ x : ℝ, r.health_score = max 0 (min 100 x) ∧
        r.grade = gradeOf (max 0 (min 100 x)) := by
      show ∃ x : ℝ,
        (compute_health betw avgPath clustering g comm w1 w2 w3 w4).health_score =
          max 0 (min 100 x) ∧
        (compute_health betw avgPath clustering g comm w1 w2 w3 w4).grade =
          gradeOf (max 0 (min 100 x))
      rw [compute_health.eq_def, if_neg hn]
      exact ⟨_, rfl, rfl⟩
    obtain ⟨x, hsc, hgr⟩ := hr
    have h0 : (0 : ℝ) ≤ max 0 (min 100 x) := le_max_left _ _
    have h100 : max (0 : ℝ) (min 100 x) ≤ 100 := max_le (by norm_num) (min_le_left _ _)
    rw [hsc, hgr]
    exact ⟨⟨h0, h100⟩, gradeOf_spec _, fun hcon => absurd hcon hn⟩

theorem C5_witness :
    (compute_health (fun _ _ => 0) (fun _ => none) (fun _ => 0)
      { nodes := [], edges := [] }
      { partition := [], communities := [], modularity := 0 }
      (1/4) (1/4) (1/4) (1/4)).health_score = 0 ∧
    (compute_health (fun _ _ => 0) (fun _ => none) (fun _ => 0)
      { nodes := [], edges := [] }
      { partition := [], communities := [], modularity := 0 }
      (1/4) (1/4) (1/4) (1/4)).grade = "F" :=
  (C5_health_score_and_grade (fun _ _ => 0) (fun _ => none) (fun _ => 0)
    { nodes := [], edges := [] }
    { partition := [], communities := [], modularity := 0 }
    (1/4) (1/4) (1/4) (1/4)).2.2 (by decide)

/-! ### Centrality and pagerank (metrics/centrality.py) -/

/-- networkx `in_degree_centrality`: in-degree divided by `n-1`, with the
library's `len(G) <= 1` guard returning 1 for every node. -/
def in_degree_centrality (g : DiGraph) (n : String) : ℚ :=
  if g.nodes.length ≤ 1 then 1
  else ((g.edges.countP (fun e => e.1.2 = n)) : ℚ) / ((g.nodes.length : ℚ) - 1)

/-- networkx `out_degree_centrality`. -/
def out_degree_centrality (g : DiGraph) (n : String) : ℚ :=
  if g.nodes.length ≤ 1 then 1
  else ((g.edges.countP (fun e => e.1.1 = n)) : ℚ) / ((g.nodes.length : ℚ) - 1)

/-- Total out-weight of `u` (the `weight` attribute defaulting to 1, as
networkx does for absent weights). -/
noncomputable def outStrength (g : DiGraph) (u : String) : ℝ :=
  ((g.edges.filter (fun e => e.1.1 = u)).map (fun e => e.2.weight.getD 1)).sum

open Classical in
/-- Modelled from the spec: one power-iteration step of networkx pagerank
with damping 0.85 = 17/20, uniform personalization and uniform dangling
distribution.  A node whose total out-weight is zero contributes nothing
through its edges (networkx's sparse normalization `S[S != 0] = 1/S[S != 0]`
leaves zero rows zero — Lean's division by zero gives the same) and its
mass is redistributed through the dangling sum. -/
noncomputable def pagerankStep (g : DiGraph) (x : String → ℝ) : String → ℝ :=
  fun v =>
    let N : ℝ := (g.nodes.length : ℝ)
    let contrib := ((g.edges.filter (fun e => e.1.2 = v)).map
      (fun e => x e.1.1 * (e.2.weight.getD 1 / outStrength g e.1.1))).sum
    let danglesum := ((g.nodes.filter (fun p => outStrength g p.1 = 0)).map
      (fun p => x p.1)).sum
    (17/20) * contrib + (17/20) * danglesum * (1/N) + (1 - 17/20) * (1/N)

/-- The pagerank iterates from the uniform start vector; networkx runs at
most 100 rounds and returns the first iterate meeting its tolerance, so
whatever it returns is `pagerankIter g k` for some `k`. -/
noncomputable def pagerankIter (g : DiGraph) : Nat → (String → ℝ)
  | 0 => fun _ => 1 / (g.nodes.length : ℝ)
  | k + 1 => pagerankStep g (pagerankIter g k)

theorem sum_map_add {E : Type} (l : List E) (f h : E → ℝ) :
    (l.map (fun e => f e + h e)).sum = (l.map f).sum + (l.map h).sum := by
  induction l with
  | nil => simp
  | cons e t ih =>
    simp [ih]
    ring

theorem sum_map_smul {E : Type} (l : List E) (c : ℝ) (f : E → ℝ) :
    (l.map (fun e => c * f e)).sum = c * (l.map f).sum := by
  induction l with
  | nil => simp
  | cons e t ih =>
    simp [ih]
    ring

theorem sum_map_const {E : Type} (l : List E) (c : ℝ) :
    (l.map (fun _ => c)).sum = (l.length : ℝ) * c := by
  induction l with
  | nil => simp
  | cons e t ih =>
    simp [ih]
    ring

theorem sum_filter_ite {E : Type} (l : List E) (p : E → Prop) [DecidablePred p]
    (f : E → ℝ) :
    ((l.filter (fun e => p e)).map f).sum
      = (l.map (fun e => if p e then f e else 0)).sum := by
  induction l with
  | nil => simp
  | cons e t ih =>
    by_cases h : p e <;> simp [List.filter_cons, h, ih]

theorem sum_single_pairs {P : Type} :
    ∀ (ns : List P) (fs : P → String), (ns.map fs).Nodup → ∀ a ∈ ns,
      ∀ (c : ℝ) (F H : P → ℝ),
      F a = c + H a → (∀ p ∈ ns, fs p ≠ fs a → F p = H p) →
      (ns.map F).sum = c + (ns.map H).sum := by
  intro ns
  induction ns with
  | nil =>
    intro fs _ a ha
    simp at ha
  | cons y t ih =>
    intro fs hnd a ha c F H hFa hother
    have hnd2 : (fs y :: t.map fs).Nodup := by simpa using hnd
    rw [List.map_cons, List.map_cons, List.sum_cons, List.sum_cons]
    rcases List.mem_cons.1 ha with hay | hat
    · subst hay
      have hnt : ∀ p ∈ t, F p = H p := by
        intro p hp
        refine hother p (List.mem_cons_of_mem _ hp) ?_
        intro he
        have hm : fs a ∈ t.map fs := he ▸ List.mem_map.2 ⟨p, hp, rfl⟩
        exact (List.nodup_cons.1 hnd2).1 hm
      rw [hFa, List.map_congr_left hnt]
      ring
    · have hya : fs y ≠ fs a := by
        intro he
        have hm : fs y ∈ t.map fs := he ▸ List.mem_map.2 ⟨a, hat, rfl⟩
        exact (List.nodup_cons.1 hnd2).1 hm
      rw [hother y (List.mem_cons_self ..) hya,
        ih fs (List.nodup_cons.1 hnd2).2 a hat c F H hFa
          (fun p hp hne => hother p (List.mem_cons_of_mem _ hp) hne)]
      ring

theorem sum_fiberwise_pairs {E P : Type} (l : List E) (ns : List P) (fs : P → String)
    (key : E → String) (f : E → ℝ) (hnd : (ns.map fs).Nodup)
    (hmem : ∀ e ∈ l, key e ∈ ns.map fs) :
    (ns.map (fun p => ((l.filter (fun e => key e = fs p)).map f).sum)).sum
      = (l.map f).sum := by
  induction l with
  | nil => simp
  | cons e t ih =>
    obtain ⟨p0, hp0, hkey⟩ := List.mem_map.1 (hmem e (List.mem_cons_self ..))
    rw [List.map_cons, List.sum_cons,
      ← ih (fun e2 he2 => hmem e2 (List.mem_cons_of_mem _ he2))]
    apply sum_single_pairs ns fs hnd p0 hp0 (f e)
      (fun p => (((e :: t).filter (fun e2 => key e2 = fs p)).map f).sum)
      (fun p => ((t.filter (fun e2 => key e2 = fs p)).map f).sum) ?_ ?_
    · show (((e :: t).filter (fun e2 => key e2 = fs p0)).map f).sum
        = f e + ((t.filter (fun e2 => key e2 = fs p0)).map f).sum
      rw [List.filter_cons, if_pos (by simp only [decide_eq_true_eq]; exact hkey.symm),
        List.map_cons, List.sum_cons]
    · intro p hp hne
      show (((e :: t).filter (fun e2 => key e2 = fs p)).map f).sum
        = ((t.filter (fun e2 => key e2 = fs p)).map f).sum
      rw [List.filter_cons,
        if_neg (by simp only [decide_eq_true_eq]; exact fun he => hne ((hkey.trans he).symm))]

theorem sum_contrib (g : DiGraph) (x : String → ℝ)
    (hnd : (g.nodes.map Prod.fst).Nodup)
    (hsrc : ∀ e ∈ g.edges, e.1.1 ∈ g.nodes.map Prod.fst) :
    (g.edges.map (fun e => x e.1.1 * (e.2.weight.getD 1 / outStrength g e.1.1))).sum
      = (g.nodes.map (fun p => if outStrength g p.1 = 0 then 0 else x p.1)).sum := by
  rw [← sum_fiberwise_pairs g.edges g.nodes Prod.fst (fun e => e.1.1)
    (fun e => x e.1.1 * (e.2.weight.getD 1 / outStrength g e.1.1)) hnd hsrc]
  apply congrArg List.sum
  apply List.map_congr_left
  intro p _
  show ((g.edges.filter (fun e => e.1.1 = p.1)).map
      (fun e => x e.1.1 * (e.2.weight.getD 1 / outStrength g e.1.1))).sum
    = if outStrength g p.1 = 0 then 0 else x p.1
  have hfil : ∀ e ∈ g.edges.filter (fun e => e.1.1 = p.1), e.1.1 = p.1 := by
    intro e he
    exact of_decide_eq_true (List.mem_filter.1 he).2
  have hmapeq : (g.edges.filter (fun e => e.1.1 = p.1)).map
      (fun e => x e.1.1 * (e.2.weight.getD 1 / outStrength g e.1.1))
      = (g.edges.filter (fun e => e.1.1 = p.1)).map
        (fun e => (x p.1 / outStrength g p.1) * e.2.weight.getD 1) := by
    apply List.map_congr_left
    intro e he
    rw [hfil e he]
    ring
  rw [hmapeq, sum_map_smul]
  have hS : ((g.edges.filter (fun e => e.1.1 = p.1)).map
      (fun e => e.2.weight.getD 1)).sum = outStrength g p.1 := rfl
  rw [hS]
  by_cases h0 : outStrength g p.1 = 0
  · rw [if_pos h0, h0, div_zero, zero_mul]
  · rw [if_neg h0, div_mul_cancel₀ _ h0]

theorem pagerankStep_sum (g : DiGraph) (x : String → ℝ)
    (hne : g.nodes ≠ []) (hnd : (g.nodes.map Prod.fst).Nodup)
    (hsrc : ∀ e ∈ g.edges, e.1.1 ∈ g.nodes.map Prod.fst)
    (htgt : ∀ e ∈ g.edges, e.1.2 ∈ g.nodes.map Prod.fst)
    (hx : (g.nodes.map (fun p => x p.1)).sum = 1) :
    (g.nodes.map (fun p => pagerankStep g x p.1)).sum = 1 := by
  have hN : (g.nodes.length : ℝ) ≠ 0 := by
    have h0 : g.nodes.length ≠ 0 := fun h => hne (List.length_eq_zero.1 h)
    exact_mod_cast h0
  have hstep : g.nodes.map (fun p => pagerankStep g x p.1)
      = g.nodes.map (fun p =>
          (17/20) * ((g.edges.filter (fun e => e.1.2 = p.1)).map
            (fun e => x e.1.1 * (e.2.weight.getD 1 / outStrength g e.1.1))).sum
          + ((17/20) * ((g.nodes.filter (fun q => outStrength g q.1 = 0)).map
              (fun q => x q.1)).sum * (1/(g.nodes.length : ℝ))
            + (1 - 17/20) * (1/(g.nodes.length : ℝ)))) := by
    apply List.map_congr_left
    intro p _
    simp only [pagerankStep]
    ring
  rw [hstep,
    sum_map_add g.nodes
      (fun p => (17/20) * ((g.edges.filter (fun e => e.1.2 = p.1)).map
        (fun e => x e.1.1 * (e.2.weight.getD 1 / outStrength g e.1.1))).sum)
      (fun _ => (17/20) * ((g.nodes.filter (fun q => outStrength g q.1 = 0)).map
          (fun q => x q.1)).sum * (1/(g.nodes.length : ℝ))
        + (1 - 17/20) * (1/(g.nodes.length : ℝ))),
    sum_map_smul g.nodes (17/20)
      (fun p => ((g.edges.filter (fun e => e.1.2 = p.1)).map
        (fun e => x e.1.1 * (e.2.weight.getD 1 / outStrength g e.1.1))).sum),
    sum_map_const g.nodes,
    sum_fiberwise_pairs g.edges g.nodes Prod.fst (fun e => e.1.2)
      (fun e => x e.1.1 * (e.2.weight.getD 1 / outStrength g e.1.1)) hnd htgt,
    sum_contrib g x hnd hsrc]
  have hsplit : ((g.nodes.map
        (fun p => if outStrength g p.1 = 0 then (0:ℝ) else x p.1)).sum)
      + ((g.nodes.filter (fun q => outStrength g q.1 = 0)).map
          (fun q => x q.1)).sum = 1 := by
    rw [sum_filter_ite g.nodes (fun q => outStrength g q.1 = 0) (fun q => x q.1),
      ← sum_map_add g.nodes
        (fun p => if outStrength g p.1 = 0 then (0:ℝ) else x p.1)
        (fun p => if outStrength g p.1 = 0 then x p.1 else 0),
      ← hx]
    apply congrArg List.sum
    apply List.map_congr_left
    intro p _
    by_cases h : outStrength g p.1 = 0 <;> simp [h]
  have hD := hsplit
  set S := ((g.nodes.map
      (fun p => if outStrength g p.1 = 0 then (0:ℝ) else x p.1)).sum) with hSdef
  set D := ((g.nodes.filter (fun q => outStrength g q.1 = 0)).map
      (fun q => x q.1)).sum with hDdef
  field_simp
  nlinarith [hD, sq_nonneg ((g.nodes.length : ℝ))]

theorem pagerankIter_sum (g : DiGraph)
    (hne : g.nodes ≠ []) (hnd : (g.nodes.map Prod.fst).Nodup)
    (hsrc : ∀ e ∈ g.edges, e.1.1 ∈ g.nodes.map Prod.fst)
    (htgt : ∀ e ∈ g.edges, e.1.2 ∈ g.nodes.map Prod.fst) :
    ∀ k, (g.nodes.map (fun p => pagerankIter g k p.1)).sum = 1 := by
  intro k
  induction k with
  | zero =>
    have hN : (g.nodes.length : ℝ) ≠ 0 := by
      have h0 : g.nodes.length ≠ 0 := fun h => hne (List.length_eq_zero.1 h)
      exact_mod_cast h0
    show (g.nodes.map (fun _ => 1 / (g.nodes.length : ℝ))).sum = 1
    rw [sum_map_const]
    field_simp
  | succ k ih =>
    exact pagerankStep_sum g (pagerankIter g k) hne hnd hsrc htgt ih

/-- The per-node record assembled by `compute_centrality`
(metrics/centrality.py): the keys in_degree_centrality,
out_degree_centrality, degree_centrality, betweenness_centrality,
eigenvector_centrality and pagerank of the per-node dict. -/
structure CentralityScores where
  in_degree_centrality : ℚ
  out_degree_centrality : ℚ
  degree_centrality : ℚ
  betweenness_centrality : ℚ
  eigenvector_centrality : ℚ
  pagerank : ℝ

/-- Modelled from the spec and the networkx documentation:
`nx.eigenvector_centrality` raises `NetworkXPointlessConcept` ("cannot
compute centrality for the null graph") on a graph with no nodes; on a
nonempty graph its values are abstracted as the `eigen` parameter.  The
`try/except` in compute_centrality catches only
`PowerIterationFailedConvergence`, so the null-graph exception
propagates. -/
def eigenvectorCall (eigen : DiGraph → String → ℚ) (g : DiGraph) :
    Except String (String → ℚ) :=
  if g.nodes.isEmpty then
    Except.error "cannot compute centrality for the null graph"
  else Except.ok (eigen g)

/-- `compute_centrality` (metrics/centrality.py).  Degree centralities
are concrete (networkx divides by `n-1` with a `len(G) <= 1` guard);
betweenness and eigenvector values are oracle parameters; pagerank is
the networkx power iteration (networkx stops at the first iterate
meeting its tolerance, and every iterate has the same total mass, so
iterate 100 stands for the returned vector); an uncaught exception is an
`Except.error`. -/
noncomputable def compute_centrality (betw eigen : DiGraph → String → ℚ)
    (g : DiGraph) : Except String (List (String × CentralityScores)) :=
  match eigenvectorCall eigen g with
  | Except.error msg => Except.error msg
  | Except.ok ev => Except.ok (g.nodes.map (fun p =>
      (p.1, { in_degree_centrality := in_degree_centrality g p.1,
              out_degree_centrality := out_degree_centrality g p.1,
              degree_centrality := in_degree_centrality g p.1
                + out_degree_centrality g p.1,
              betweenness_centrality := betw g p.1,
              eigenvector_centrality := ev p.1,
              pagerank := pagerankIter g 100 p.1 })))

/-- C4: the claim fails on the code — on the degenerate graph with zero
nodes, compute_centrality does not return a well-formed neutral result:
the `NetworkXPointlessConcept` exception raised by
`nx.eigenvector_centrality` on the null graph is not caught (the
`except` clause only catches `PowerIterationFailedConvergence`), so the
call errors out instead of returning a result covering every node. -/
theorem C4_null_graph_error (betw eigen : DiGraph → String → ℚ) :
    compute_centrality betw eigen { nodes := [], edges := [] }
      = Except.error "cannot compute centrality for the null graph" := rfl

/-- C8: for every nonempty graph (with distinct node ids and edges
between graph nodes, as build_graph produces), the pagerank values in
the result of compute_centrality sum to 1 — exactly 1 in exact
arithmetic, hence within the 0.01 tolerance. -/
theorem C8_pagerank_sums_to_one (betw eigen : DiGraph → String → ℚ) (g : DiGraph)
    (hne : g.nodes ≠ []) (hnd : (g.nodes.map Prod.fst).Nodup)
    (hsrc : ∀ e ∈ g.edges, e.1.1 ∈ g.nodes.map Prod.fst)
    (htgt : ∀ e ∈ g.edges, e.1.2 ∈ g.nodes.map Prod.fst) :
    ∃ recs, compute_centrality betw eigen g = Except.ok recs ∧
      |(recs.map (fun r => r.2.pagerank)).sum - 1| ≤ 1/100 := by
  have hic : ¬(g.nodes.isEmpty = true) := by
    simp only [List.isEmpty_eq_true]
    exact hne
  have hok : eigenvectorCall eigen g = Except.ok (eigen g) := by
    unfold eigenvectorCall
    rw [if_neg hic]
  refine ⟨g.nodes.map (fun p =>
      (p.1, { in_degree_centrality := in_degree_centrality g p.1,
              out_degree_centrality := out_degree_centrality g p.1,
              degree_centrality := in_degree_centrality g p.1
                + out_degree_centrality g p.1,
              betweenness_centrality := betw g p.1,
              eigenvector_centrality := eigen g p.1,
              pagerank := pagerankIter g 100 p.1 })), ?_, ?_⟩
  · unfold compute_centrality
    rw [hok]
  · have h1 : (g.nodes.map (fun p => pagerankIter g 100 p.1)).sum = 1 :=
      pagerankIter_sum g hne hnd hsrc htgt 100
    rw [List.map_map]
    show |(g.nodes.map (fun p => pagerankIter g 100 p.1)).sum - 1| ≤ 1/100
    rw [h1]
    norm_num

def gC8w : DiGraph :=
  { nodes := [("a", { name := "A", email := "a" }), ("b", { name := "B", email := "b" })],
    edges := [(("a", "b"), { email_count := 3, weight := some 1 })] }

theorem C8_witness :
    ∃ recs, compute_centrality (fun _ _ => 0) (fun _ _ => 0) gC8w = Except.ok recs ∧
      |(recs.map (fun r => r.2.pagerank)).sum - 1| ≤ 1/100 :=
  C8_pagerank_sums_to_one (fun _ _ => 0) (fun _ _ => 0) gC8w
    (by simp [gC8w]) (by decide) (by decide) (by decide)

end Spine
